import Mathlib

/-!
Verification development for the document-to-type resolution engine
(`selection-set-to-object.ts`) and the federation key translator
(`federation.ts`) of the graphql-code-generator repository.

The TypeScript sources are embedded shallowly:

* machine data (GraphQL AST nodes, schema types) becomes inductive types;
* the mutually recursive selection-set transformation is written with an
  explicit fuel parameter (every recursive call consumes one unit, and fuel
  exhaustion is an explicit error), so every function is a computable `def`;
* thrown `TypeError`s become `Except.error` values carrying the thrown
  message;
* helper functions that live in modules not included in the sources
  (`utils.ts` of visitor-plugin-common, `utils.ts` of plugins-helpers) are
  modelled from the spec; each such definition carries a doc comment
  starting with `Modelled from the spec:`.
-/

/-- A single-quote character as a string, used when building generated type
text such as string-literal types. -/
def squo : String := String.singleton (Char.ofNat 39)

/-- Model of JavaScript `Array.prototype.join(sep)`. -/
def joinSep (sep : String) : List String → String
  | [] => ""
  | [x] => x
  | x :: y :: rest => x ++ sep ++ joinSep sep (y :: rest)

/-- Association-list lookup by key (models `Map.get` / property access on a
plain object with string keys). -/
def lookupRec {α : Type} : List (String × α) → String → Option α
  | [], _ => none
  | p :: rest, k => if p.1 = k then some p.2 else lookupRec rest k

/-- Association-list update (models `Map.set`): replace the value kept at the
key when present (preserving its position), append a new entry otherwise. -/
def mapSet {α : Type} (l : List (String × α)) (k : String) (v : α) : List (String × α) :=
  if l.any (fun p => p.1 = k) then l.map (fun p => if p.1 = k then (p.1, v) else p)
  else l ++ [(k, v)]

/-- The keys of an association list, in order. -/
def keysOf {α : Type} (l : List (String × α)) : List String :=
  l.map (·.1)

/-! ## GraphQL schema model -/

/-- A GraphQL output type reference: a named type possibly wrapped in list /
non-null modifiers (graphql-js `GraphQLOutputType`). -/
inductive GQLType where
  | named (name : String)
  | list (ofType : GQLType)
  | nonNull (ofType : GQLType)

/-- Modelled from the spec: `getBaseType` (plugin-helpers, not included in the
sources) unwraps list/non-null wrappers down to the named type; here the
wrapped types carry only the name of the named type they reference. -/
def GQLType.baseName : GQLType → String
  | .named n => n
  | .list t => t.baseName
  | .nonNull t => t.baseName

/-- graphql-js `isNonNullType`. -/
def isNonNullType : GQLType → Bool
  | .nonNull _ => true
  | _ => false

/-- A schema field definition: a name together with its declared output type. -/
structure FieldDef where
  name : String
  type : GQLType

/-- A named schema type.  For object types, `isTypeOf` models the optional
runtime hook `GraphQLObjectType.isTypeOf` of graphql-js; the hook is
`undefined` (here `none`) for every schema built from SDL, and when the
TypeScript code calls it through an `undefined` value the JavaScript runtime
throws a `TypeError`. When defined, it is a predicate on the value the code
happens to pass it (the code passes a schema type, whose name is forwarded
here). -/
inductive SchemaTypeDef where
  | object (name : String) (interfaces : List String) (fields : List FieldDef)
      (isTypeOf : Option (String → Bool))
  | intf (name : String) (fields : List FieldDef)
  | union (name : String) (members : List String)
  | scalar (name : String)
  | enum (name : String)

def SchemaTypeDef.nameOf : SchemaTypeDef → String
  | .object n _ _ _ => n
  | .intf n _ => n
  | .union n _ => n
  | .scalar n => n
  | .enum n => n

/-- The fields declared by an object or interface type. -/
def SchemaTypeDef.getFields : SchemaTypeDef → List FieldDef
  | .object _ _ fs _ => fs
  | .intf _ fs => fs
  | _ => []

def SchemaTypeDef.isObjectType : SchemaTypeDef → Bool
  | .object _ _ _ _ => true
  | _ => false

/-- A schema: the collection of its named types (graphql-js `GraphQLSchema`,
queried by name). -/
structure GQLSchema where
  types : List SchemaTypeDef

/-- graphql-js `schema.getType(name)`. -/
def GQLSchema.getType (s : GQLSchema) (n : String) : Option SchemaTypeDef :=
  s.types.find? (fun t => t.nameOf = n)

/-- Modelled from the spec: `getPossibleTypes` (visitor-plugin-common
`utils.ts`, not included in the sources; spec section 4.1): an object type
yields itself, an interface yields every object type declaring it, a union
yields its member object types; anything else yields nothing. -/
def getPossibleTypes (s : GQLSchema) (t : SchemaTypeDef) : List SchemaTypeDef :=
  match t with
  | .object _ _ _ _ => [t]
  | .intf n _ =>
      s.types.filter (fun d => match d with
        | .object _ ifs _ _ => n ∈ ifs
        | _ => false)
  | .union _ ms =>
      ms.filterMap (fun m => match s.getType m with
        | some d => if d.isObjectType then some d else none
        | none => none)
  | _ => []

/-- graphql-js `GraphQLUnionType.getTypes()`: the member object types of a
union, resolved in the schema (members of a valid schema are object types). -/
def unionMemberTypes (s : GQLSchema) (ms : List String) : List SchemaTypeDef :=
  ms.filterMap (fun m => match s.getType m with
    | some d => if d.isObjectType then some d else none
    | none => none)

/-! ## Selection-set AST -/

/-- A GraphQL selection node (`FieldNode` / `InlineFragmentNode` /
`FragmentSpreadNode`): a field has an optional alias and an optional nested
selection set; an inline fragment has an optional type condition (a type
name) and a selection set; a spread names a fragment. -/
inductive Sel where
  | field (al : Option String) (nm : String) (sub : Option (List Sel))
  | inline (cond : Option String) (sels : List Sel)
  | spread (nm : String)

/-- An element of the per-type collections built by the flattener:
`Array<SelectionNode | string>` in the source. -/
inductive SNode where
  | sel (s : Sel)
  | str (s : String)

/-- The result of splitting a raw selection by node kind. -/
structure Separated where
  fields : List Sel
  inlines : List Sel
  spreads : List Sel

def Sel.isField : Sel → Bool
  | .field _ _ _ => true
  | _ => false

def Sel.isInline : Sel → Bool
  | .inline _ _ => true
  | _ => false

def Sel.isSpread : Sel → Bool
  | .spread _ => true
  | _ => false

/-- Modelled from the spec: `separateSelectionSet` (visitor-plugin-common
`utils.ts`, not included in the sources) splits a raw selection into plain
fields, inline fragments and fragment spreads, preserving relative order. -/
def separateSelectionSet (sels : List Sel) : Separated :=
  ⟨sels.filter Sel.isField, sels.filter Sel.isInline, sels.filter Sel.isSpread⟩

/-- Modelled from the spec: `getFieldNodeNameValue` (visitor-plugin-common
`utils.ts`, not included in the sources) is the response key of a field
node: the alias when present, otherwise the field name. -/
def responseKey (al : Option String) (nm : String) : String :=
  al.getD nm

/-- Modelled from the spec: `mergeSelectionSets` (visitor-plugin-common
`utils.ts`, not included in the sources) unions two child selection sets:
the second selection set's selections are merged into the first one's. -/
def mergeSels (a b : List Sel) : List Sel :=
  a ++ b

/-- The per-concrete-type collection (`Map<string, Array<SelectionNode | string>>`). -/
abbrev TypeMap := List (String × List SNode)

/-- `SelectionSetToObject._appendToTypeMap` (selection-set-to-object.ts,
lines 205-213): ensure the entry exists, then append the nodes when the given
array is non-empty. -/
def appendToTypeMap (types : TypeMap) (typeName : String) (nodes : List SNode) : TypeMap :=
  let ensured := if types.any (fun p => p.1 = typeName) then types else types ++ [(typeName, [])]
  if nodes.isEmpty then ensured
  else ensured.map (fun p => if p.1 = typeName then (p.1, p.2 ++ nodes) else p)

/-! ## Generation context

The constructor parameters of `SelectionSetToObject` other than the parent
type and selection set: the schema, the fragment library, the relevant
configuration flags, the name converter, and the pluggable selection-set
processor (modelled by its capability functions, spec section 4.5). -/

/-- An entry of the fragment library (`LoadedFragment`): the fragment name and
the name of the type its type condition is on. -/
structure LoadedFragment where
  name : String
  onType : String

/-- One element of a processor `ProcessResult`: either a name/type pair
(`NameAndType`) or an already-composed string. -/
inductive ProcessItem where
  | pair (name ty : String)
  | strItem (s : String)

/-- A materialized link field handed to the processor (`LinkField` of
selection-set-processor/base). -/
structure LinkField where
  aliasName : Option String
  name : String
  type : String
  selectionSet : String

/-- The generation context. -/
structure Ctx where
  schema : GQLSchema
  loadedFragments : List LoadedFragment
  dedupeOperationSuffix : Bool
  addTypename : Bool
  nonOptionalTypename : Bool
  convertName : String → String → String
  formatNamedField : String → String
  wrapTypeWithModifiers : String → GQLType → String
  transformTypenameField : String → String → List ProcessItem
  transformPrimitiveFields : String → List String → List ProcessItem
  transformAliasesPrimitiveFields : String → List (String × String) → List ProcessItem
  transformLinkFields : List LinkField → List ProcessItem

/-! ## Fragment spread resolution -/

/-- `SelectionSetToObject.buildFragmentTypeName` (lines 430-435): the
converted fragment name, with suffix `_TypeName_Suffix` when a concrete type
name is given and the bare suffix otherwise (`typeName` defaults to the empty
string, and the call sites pass `null` — falsy — for the no-suffix case). -/
def buildFragmentTypeName (ctx : Ctx) (name suffix tyName : String) : String :=
  ctx.convertName name (if tyName ≠ "" then "_" ++ tyName ++ "_" ++ suffix else suffix)

/-- The fragment suffix used by `buildFragmentSpreadsUsage` (line 156). -/
def fragSuffix (ctx : Ctx) (spreadName : String) : String :=
  if ctx.dedupeOperationSuffix && spreadName.toLower.endsWith "fragment" then "" else "Fragment"

/-- One push into the `Record<string, string[]>` accumulator of
`buildFragmentSpreadsUsage` (lines 159-163). -/
def pushRec (m : List (String × List String)) (k v : String) : List (String × List String) :=
  if m.any (fun p => p.1 = k) then m.map (fun p => if p.1 = k then (p.1, p.2 ++ [v]) else p)
  else m ++ [(k, [v])]

/-- `SelectionSetToObject.buildFragmentSpreadsUsage` (lines 145-169): for each
spread, look the fragment up in the library (an unknown name is silently
skipped), resolve its type condition's possible types, and record one usage
token per possible type; the token carries the concrete type name as part of
the suffix only when the fragment's condition has more than one possible
type.  An `onType` that does not resolve in the schema yields no possible
types (modelled from the spec, which treats possible types of an unresolved
name as empty for this soft path). -/
def buildFragmentSpreadsUsage (ctx : Ctx) (spreads : List String) : List (String × List String) :=
  spreads.foldl
    (fun acc sName =>
      match ctx.loadedFragments.find? (fun lf => lf.name = sName) with
      | none => acc
      | some lf =>
        match ctx.schema.getType lf.onType with
        | none => acc
        | some t =>
          let pts := getPossibleTypes ctx.schema t
          pts.foldl
            (fun acc2 pt =>
              let usage := buildFragmentTypeName ctx sName (fragSuffix ctx sName)
                (if pts.length = 1 then "" else pt.nameOf)
              pushRec acc2 pt.nameOf usage)
            acc)
    []

/-- The names of the spread nodes in a separated selection. -/
def spreadNames (sels : List Sel) : List String :=
  sels.filterMap (fun s => match s with
    | .spread n => some n
    | _ => none)

/-! ## Collecting inline fragments

`SelectionSetToObject._collectInlineFragments` (lines 61-125).  The function
recurses into the inline fragments nested inside each node's selection set;
the recursion is driven by a fuel parameter, and running out of fuel is an
explicit error (the theorems below are conditioned on a successful run or
evaluate concrete inputs with sufficient fuel). -/

def fuelMsg : String := "Insufficient fuel"

/-- The `TypeError` raised by JavaScript when the object-parent branch
evaluates `parentType.isTypeOf(typeOnSchema, null, null)` while the optional
`isTypeOf` hook is `undefined` (which it is for every SDL-built schema). -/
def isTypeOfMsg : String := "TypeError: parentType.isTypeOf is not a function"

def SchemaTypeDef.isTypeOfHook : SchemaTypeDef → Option (String → Bool)
  | .object _ _ _ h => h
  | _ => none

mutual

/-- Lines 61-125: dispatch on the parent type kind.  (The list/non-null
unwrapping of lines 62-63 cannot fire here: every caller passes a named
type.) -/
def collectInlineFragments (ctx : Ctx) (fuel : Nat) (parent : SchemaTypeDef)
    (nodes : List Sel) (types : TypeMap) : Except String TypeMap :=
  match fuel with
  | 0 => .error fuelMsg
  | f + 1 =>
    match parent with
    | SchemaTypeDef.object _ _ _ _ => collectObj ctx f parent nodes types
    | SchemaTypeDef.intf _ _ =>
        collectIntf ctx f parent (getPossibleTypes ctx.schema parent) nodes types
    | SchemaTypeDef.union _ ms =>
        collectUnion ctx f parent (unionMemberTypes ctx.schema ms) nodes types
    | _ => .ok types

/-- Lines 64-79, the loop over the nodes for a concrete object parent: a
condition naming an object type attaches there; a condition naming an
interface evaluates `parentType.isTypeOf(typeOnSchema, null, null)` — a
`TypeError` when the hook is undefined — and attaches to the parent when the
call is truthy; any other condition is skipped. -/
def collectObj (ctx : Ctx) (fuel : Nat) (parent : SchemaTypeDef)
    (nodes : List Sel) (types : TypeMap) : Except String TypeMap :=
  match fuel with
  | 0 => .error fuelMsg
  | f + 1 =>
    match nodes with
    | [] => .ok types
    | node :: rest =>
      match node with
      | Sel.inline cond sels =>
        let typeOnSchema := match cond with
          | some c => ctx.schema.getType c
          | none => some parent
        let parts := separateSelectionSet sels
        let usage := buildFragmentSpreadsUsage ctx (spreadNames parts.spreads)
        match typeOnSchema with
        | some t =>
          match t with
          | SchemaTypeDef.object tn _ _ _ =>
            let types1 := appendToTypeMap types tn (parts.fields.map SNode.sel)
            let types2 := appendToTypeMap types1 tn
              (((lookupRec usage tn).getD []).map SNode.str)
            match collectInlineFragments ctx f t parts.inlines types2 with
            | .error e => .error e
            | .ok types3 => collectObj ctx f parent rest types3
          | SchemaTypeDef.intf tin _ =>
            match parent.isTypeOfHook with
            | none => .error isTypeOfMsg
            | some hook =>
              if hook tin then
                let pn := parent.nameOf
                let types1 := appendToTypeMap types pn (parts.fields.map SNode.sel)
                let types2 := appendToTypeMap types1 pn
                  (((lookupRec usage pn).getD []).map SNode.str)
                match collectInlineFragments ctx f t parts.inlines types2 with
                | .error e => .error e
                | .ok types3 => collectObj ctx f parent rest types3
              else collectObj ctx f parent rest types
          | _ => collectObj ctx f parent rest types
        | none => collectObj ctx f parent rest types
      | _ => collectObj ctx f parent rest types

/-- Lines 80-99, the loop over the nodes for an interface parent: a condition
naming one of the possible concrete types attaches there; a condition
repeating the parent interface fans the fields out to every possible type
(recursing once per possible type, as the source does); anything else is
skipped. -/
def collectIntf (ctx : Ctx) (fuel : Nat) (parent : SchemaTypeDef)
    (possibleTypes : List SchemaTypeDef) (nodes : List Sel) (types : TypeMap) :
    Except String TypeMap :=
  match fuel with
  | 0 => .error fuelMsg
  | f + 1 =>
    match nodes with
    | [] => .ok types
    | node :: rest =>
      match node with
      | Sel.inline cond sels =>
        let schemaType := match cond with
          | some c => ctx.schema.getType c
          | none => some parent
        let parts := separateSelectionSet sels
        let usage := buildFragmentSpreadsUsage ctx (spreadNames parts.spreads)
        match schemaType with
        | some t =>
          match t with
          | SchemaTypeDef.object tn _ _ _ =>
            if possibleTypes.any (fun pt => pt.nameOf = tn) then
              let types1 := appendToTypeMap types tn (parts.fields.map SNode.sel)
              let types2 := appendToTypeMap types1 tn
                (((lookupRec usage tn).getD []).map SNode.str)
              match collectInlineFragments ctx f t parts.inlines types2 with
              | .error e => .error e
              | .ok types3 => collectIntf ctx f parent possibleTypes rest types3
            else collectIntf ctx f parent possibleTypes rest types
          | SchemaTypeDef.intf tin _ =>
            if tin = parent.nameOf then
              match fanSameIntf ctx f t parts.fields usage parts.inlines possibleTypes types with
              | .error e => .error e
              | .ok types' => collectIntf ctx f parent possibleTypes rest types'
            else collectIntf ctx f parent possibleTypes rest types
          | _ => collectIntf ctx f parent possibleTypes rest types
        | none => collectIntf ctx f parent possibleTypes rest types
      | _ => collectIntf ctx f parent possibleTypes rest types

/-- Lines 93-97: the fan-out of a same-interface re-condition over every
possible type (each iteration also recurses on the nested inlines, as the
source does inside the loop).  `t` is the re-asserted interface type, whose
separated parts are `flds` (fields) and `usage` (spread usage record). -/
def fanSameIntf (ctx : Ctx) (fuel : Nat) (t : SchemaTypeDef) (flds : List Sel)
    (usage : List (String × List String)) (inlines : List Sel)
    (pts : List SchemaTypeDef) (types : TypeMap) : Except String TypeMap :=
  match fuel with
  | 0 => .error fuelMsg
  | f + 1 =>
    match pts with
    | [] => .ok types
    | pt :: rest =>
      let types1 := appendToTypeMap types pt.nameOf (flds.map SNode.sel)
      let types2 := appendToTypeMap types1 pt.nameOf
        (((lookupRec usage pt.nameOf).getD []).map SNode.str)
      match collectInlineFragments ctx f t inlines types2 with
      | .error e => .error e
      | .ok types3 => fanSameIntf ctx f t flds usage inlines rest types3

/-- Lines 100-124, the loop over the nodes for a union parent: a condition
naming a member object type attaches there; a condition naming an interface
fans out to the intersection of the interface's implementors and the union's
members (recursing once per matching member, as the source does); anything
else is skipped. -/
def collectUnion (ctx : Ctx) (fuel : Nat) (parent : SchemaTypeDef)
    (possibleTypes : List SchemaTypeDef) (nodes : List Sel) (types : TypeMap) :
    Except String TypeMap :=
  match fuel with
  | 0 => .error fuelMsg
  | f + 1 =>
    match nodes with
    | [] => .ok types
    | node :: rest =>
      match node with
      | Sel.inline cond sels =>
        let schemaType := match cond with
          | some c => ctx.schema.getType c
          | none => some parent
        let parts := separateSelectionSet sels
        let usage := buildFragmentSpreadsUsage ctx (spreadNames parts.spreads)
        match schemaType with
        | some t =>
          match t with
          | SchemaTypeDef.object tn _ _ _ =>
            if possibleTypes.any (fun pt => pt.nameOf = tn) then
              let types1 := appendToTypeMap types tn (parts.fields.map SNode.sel)
              let types2 := appendToTypeMap types1 tn
                (((lookupRec usage tn).getD []).map SNode.str)
              match collectInlineFragments ctx f t parts.inlines types2 with
              | .error e => .error e
              | .ok types3 => collectUnion ctx f parent possibleTypes rest types3
            else collectUnion ctx f parent possibleTypes rest types
          | SchemaTypeDef.intf _ _ =>
            let possibleInterfaceTypes := getPossibleTypes ctx.schema t
            match fanUnionIntf ctx f t parts.fields usage parts.inlines
                possibleInterfaceTypes possibleTypes types with
            | .error e => .error e
            | .ok types' => collectUnion ctx f parent possibleTypes rest types'
          | _ => collectUnion ctx f parent possibleTypes rest types
        | none => collectUnion ctx f parent possibleTypes rest types
      | _ => collectUnion ctx f parent possibleTypes rest types

/-- Lines 113-121: fan an interface-conditioned fragment out over the union
members that implement the interface (each matching member also recurses on
the nested inlines, as the source does inside the loop). -/
def fanUnionIntf (ctx : Ctx) (fuel : Nat) (t : SchemaTypeDef) (flds : List Sel)
    (usage : List (String × List String)) (inlines : List Sel)
    (possibleInterfaceTypes : List SchemaTypeDef) (pts : List SchemaTypeDef)
    (types : TypeMap) : Except String TypeMap :=
  match fuel with
  | 0 => .error fuelMsg
  | f + 1 =>
    match pts with
    | [] => .ok types
    | pt :: rest =>
      if possibleInterfaceTypes.any (fun pit => pit.nameOf = pt.nameOf) then
        let types1 := appendToTypeMap types pt.nameOf (flds.map SNode.sel)
        let types2 := appendToTypeMap types1 pt.nameOf
          (((lookupRec usage pt.nameOf).getD []).map SNode.str)
        match collectInlineFragments ctx f t inlines types2 with
        | .error e => .error e
        | .ok types3 => fanUnionIntf ctx f t flds usage inlines
            possibleInterfaceTypes rest types3
      else fanUnionIntf ctx f t flds usage inlines possibleInterfaceTypes rest types

end

/-! ## Flattening -/

/-- `SelectionSetToObject._createInlineFragmentForFieldNodes` (lines 127-143):
wrap the directly selected fields into a synthetic inline fragment whose type
condition names the parent type. -/
def createInlineFragmentForFieldNodes (parent : SchemaTypeDef) (fieldNodes : List Sel) : Sel :=
  Sel.inline (some parent.nameOf) fieldNodes

/-- `SelectionSetToObject.flattenSelectionSet` (lines 171-203): separate the
raw selection, wrap plain fields into a synthetic inline fragment on the
parent type (appended after the explicit inline fragments), collect all
inline fragments into the per-type map, then merge the fragment-spread usage
tokens into the same map. -/
def flattenSelectionSet (ctx : Ctx) (fuel : Nat) (parent : SchemaTypeDef)
    (selections : List Sel) : Except String TypeMap :=
  let parts := separateSelectionSet selections
  let inlines := if parts.fields.isEmpty then parts.inlines
    else parts.inlines ++ [createInlineFragmentForFieldNodes parent parts.fields]
  match collectInlineFragments ctx fuel parent inlines [] with
  | .error e => .error e
  | .ok types =>
    let fragmentsUsage := buildFragmentSpreadsUsage ctx (spreadNames parts.spreads)
    .ok (fragmentsUsage.foldl
      (fun m p => appendToTypeMap m p.1 (p.2.map SNode.str)) types)

/-! ## Field classification and merging

The classification loop of `SelectionSetToObject.buildSelectionSetString`
(lines 251-303).  The loop is not recursive; it is factored out of the
recursive string builder so its properties can be stated directly. -/

def isMetadataFieldName (nm : String) : Bool :=
  nm = "__schema" || nm = "__type"

/-- The two introspection meta fields (`SchemaMetaFieldDef`,
`TypeMetaFieldDef` of graphql-js): `__schema: __Schema!` and
`__type(name: String!): __Type`. -/
def metadataFieldMap (nm : String) : Option FieldDef :=
  if nm = "__schema" then some ⟨"__schema", GQLType.nonNull (GQLType.named "__Schema")⟩
  else if nm = "__type" then some ⟨"__type", GQLType.named "__Type"⟩
  else none

/-- The stored field node of a link-field entry (alias, name and the — possibly
merged — child selection set). -/
structure FieldNodeRep where
  al : Option String
  nm : String
  sels : List Sel

/-- One entry of the `linkFieldSelectionSets` map: the schema-declared output
type of the selected field and the stored field node. -/
structure LinkEntry where
  selectedFieldType : GQLType
  field : FieldNodeRep

/-- The classification state built by the loop: the four buffers and the
`requireTypename` flag (insertion-ordered maps are association lists). -/
structure ClassifyState where
  prims : List (String × FieldNodeRep)
  aliased : List (String × FieldNodeRep)
  links : List (String × LinkEntry)
  requireTypename : Bool
  spreadUsages : List String

def emptyClassifyState : ClassifyState :=
  ⟨[], [], [], false, []⟩

/-- The message of the `TypeError` thrown at line 287 (template interpolation
of a `GraphQLObjectType` prints its name). -/
def couldNotFindMsg (parent : SchemaTypeDef) (nm : String) : String :=
  "Could not find field type. " ++ parent.nameOf ++ "." ++ nm

/-- The schema field resolved for a link field (lines 279-284): the parent
type's field of that name, overridden by the introspection meta field when
the name is a metadata field name. -/
def resolveSelectedField (parent : SchemaTypeDef) (nm : String) : Option FieldDef :=
  if isMetadataFieldName nm then metadataFieldMap nm
  else parent.getFields.find? (fun f => f.name = nm)

/-- One iteration of the classification loop (lines 264-303): strings are
fragment-spread usages; a field without nested selection goes to the aliased
or primitive buffer (or sets `requireTypename` for `__typename`); a field
with a nested selection resolves its schema field (a fatal `TypeError` when
absent) and is inserted into the link map keyed by response key — a second
occurrence of the same response key is merged into the first by unioning the
child selection sets.  Inline fragments and fragment spreads reaching this
loop are skipped by its `kind` tests. -/
def classifyStep (parent : SchemaTypeDef) (st : ClassifyState) (node : SNode) :
    Except String ClassifyState :=
  match node with
  | .str s => .ok { st with spreadUsages := st.spreadUsages ++ [s] }
  | .sel (Sel.field al nm sub) =>
    match sub with
    | none =>
      match al with
      | some a => .ok { st with aliased := mapSet st.aliased a ⟨some a, nm, []⟩ }
      | none =>
        if nm = "__typename" then .ok { st with requireTypename := true }
        else .ok { st with prims := mapSet st.prims nm ⟨none, nm, []⟩ }
    | some sels =>
      match resolveSelectedField parent nm with
      | none => .error (couldNotFindMsg parent nm)
      | some fd =>
        let fieldName := responseKey al nm
        match lookupRec st.links fieldName with
        | none =>
            .ok { st with links := st.links ++ [(fieldName, ⟨fd.type, ⟨al, nm, sels⟩⟩)] }
        | some e =>
            .ok { st with links := (mapSet st.links fieldName
              ⟨e.selectedFieldType, ⟨e.field.al, e.field.nm, mergeSels e.field.sels sels⟩⟩) }
  | .sel _ => .ok st

/-- The classification loop over the collected selection nodes. -/
def classifyGo (parent : SchemaTypeDef) (st : ClassifyState) :
    List SNode → Except String ClassifyState
  | [] => .ok st
  | node :: rest =>
    match classifyStep parent st node with
    | .error e => .error e
    | .ok st' => classifyGo parent st' rest

/-- Classification of one concrete type's selection nodes, from the empty
state. -/
def classifySelections (parent : SchemaTypeDef) (nodes : List SNode) :
    Except String ClassifyState :=
  classifyGo parent emptyClassifyState nodes

/-! ## The discriminant field -/

/-- `SelectionSetToObject.buildTypeNameField` (lines 351-367): emit the
`__typename` field when any of the three flags demands it; the field is
optional (name suffixed with a question mark) exactly when it was added only
by the always-add default — not explicitly queried and not forced
non-optional.  Returns `none` when the field is omitted; otherwise the
`{ name, type }` pair, the type being the string-literal type of the
concrete type name. -/
def buildTypeNameField (formatNamedField : String → String) (typeName : String)
    (nonOptionalTypename addTypename queriedForTypename : Bool) :
    Option (String × String) :=
  if nonOptionalTypename || addTypename || queriedForTypename then
    let optionalTypename := !queriedForTypename && !nonOptionalTypename
    some (formatNamedField "__typename" ++ (if optionalTypename then "?" else ""),
      squo ++ typeName ++ squo)
  else none

/-! ## The recursive string builder and composer -/

/-- Indentation applied to a nested selection-set expression (line 317:
`.split('\n').join('\n  ')`). -/
def indentSub (s : String) : String :=
  joinSep "\n  " (s.splitOn "\n")

/-- One branch of the top-level composition (`transformSelectionSet`, lines
372-383): the per-type composed fragments are filtered for truthiness; zero
fragments contribute no branch, one contributes itself bare, several are
joined as an explicit parenthesised intersection. -/
def composeBranch (strs : List String) : Option String :=
  match strs.filter (fun s => s ≠ "") with
  | [] => none
  | [x] => some x
  | x :: y :: rest => some ("( " ++ joinSep " & " (x :: y :: rest) ++ " )")

mutual

/-- `SelectionSetToObject.transformSelectionSet` (lines 369-386): group the
selections per concrete type, compose each type's fragments into a branch,
and join the branches as a union. -/
def transformSelectionSet (ctx : Ctx) (fuel : Nat) (parent : SchemaTypeDef)
    (selections : List Sel) : Except String String :=
  match fuel with
  | 0 => .error fuelMsg
  | f + 1 =>
    match buildGroupedSelections ctx f parent selections with
    | .error e => .error e
    | .ok grouped =>
        .ok (joinSep " | " (grouped.filterMap (fun p => composeBranch p.2)))

/-- `SelectionSetToObject._buildGroupedSelections` (lines 215-249): an empty
selection yields the empty record; otherwise flatten the selection and build
one entry per possible concrete type of the parent. -/
def buildGroupedSelections (ctx : Ctx) (fuel : Nat) (parent : SchemaTypeDef)
    (selections : List Sel) : Except String (List (String × List String)) :=
  match fuel with
  | 0 => .error fuelMsg
  | f + 1 =>
    if selections.isEmpty then .ok []
    else
      match flattenSelectionSet ctx f parent selections with
      | .error e => .error e
      | .ok types => groupedGo ctx f types (getPossibleTypes ctx.schema parent) []

/-- The `reduce` of lines 222-246: for each possible type (re-resolved in the
schema and required to be an object type, else a fatal `TypeError`), ensure
an entry — possibly left empty — and push the built selection-set string when
it is non-null. -/
def groupedGo (ctx : Ctx) (fuel : Nat) (types : TypeMap) (pts : List SchemaTypeDef)
    (acc : List (String × List String)) : Except String (List (String × List String)) :=
  match fuel with
  | 0 => .error fuelMsg
  | f + 1 =>
    match pts with
    | [] => .ok acc
    | t :: rest =>
      let typeName := t.nameOf
      match ctx.schema.getType typeName with
      | some schemaType =>
        if schemaType.isObjectType then
          let selectionNodes := (lookupRec types typeName).getD []
          let acc1 := if acc.any (fun p => p.1 = typeName) then acc
            else acc ++ [(typeName, [])]
          match buildSelectionSetString ctx f schemaType selectionNodes with
          | .error e => .error e
          | .ok transformedSet =>
            let acc2 := match transformedSet with
              | some s => acc1.map (fun p => if p.1 = typeName then (p.1, p.2 ++ [s]) else p)
              | none => acc1
            groupedGo ctx f types rest acc2
        else .error ("Invalid state! Schema type " ++ typeName ++
          " is not a valid GraphQL object!")
      | none => .error ("Invalid state! Schema type " ++ typeName ++
          " is not a valid GraphQL object!")

/-- `SelectionSetToObject.buildSelectionSetString` (lines 251-349): classify
the collected nodes, materialize the link fields (recursing into each link
field's merged child selection with the child parent type resolved from the
schema field's base type), run the processor, and compose the per-type
fragments into `null`, a bare fragment, or an intersection. -/
def buildSelectionSetString (ctx : Ctx) (fuel : Nat) (parent : SchemaTypeDef)
    (selectionNodes : List SNode) : Except String (Option String) :=
  match fuel with
  | 0 => .error fuelMsg
  | f + 1 =>
    match classifySelections parent selectionNodes with
    | .error e => .error e
    | .ok st =>
      match linkGo ctx f st.links [] with
      | .error e => .error e
      | .ok linkFields =>
        let typeInfoField := buildTypeNameField ctx.formatNamedField parent.nameOf
          ctx.nonOptionalTypename ctx.addTypename st.requireTypename
        let transformed :=
          ((match typeInfoField with
            | some p => ctx.transformTypenameField p.2 p.1
            | none => []) ++
           ctx.transformPrimitiveFields parent.nameOf (st.prims.map (fun p => p.2.nm)) ++
           ctx.transformAliasesPrimitiveFields parent.nameOf
             (st.aliased.map (fun p => (p.2.al.getD p.2.nm, p.2.nm))) ++
           ctx.transformLinkFields linkFields).filter
            (fun item => match item with
              | ProcessItem.pair _ _ => true
              | ProcessItem.strItem s => s ≠ "")
        let allStrings := transformed.filterMap (fun item => match item with
          | ProcessItem.strItem s => some s
          | _ => none)
        let allObjectsMerged := transformed.filterMap (fun item => match item with
          | ProcessItem.pair n ty => some (n ++ ": " ++ ty)
          | _ => none)
        let mergedObjectsAsString : Option String :=
          if allObjectsMerged.isEmpty then none
          else some ("\x7b " ++ joinSep ", " allObjectsMerged ++ " \x7d")
        let fields := (allStrings ++ mergedObjectsAsString.toList ++ st.spreadUsages).filter
          (fun s => s ≠ "")
        match fields with
        | [] => .ok none
        | [x] => .ok (some x)
        | x :: y :: rest =>
            .ok (some ("(\n  " ++ joinSep "\n  & " (x :: y :: rest) ++ "\n)"))

/-- The materialization loop over the link-field entries (lines 305-322): for
each stored entry, resolve the base type of the schema-declared field type,
recurse on the merged child selection with that type as the parent, indent
the child expression and wrap it with the schema type's list/non-null
modifiers.  (Type references of a consistent schema always resolve; an
unresolvable base-type name is an invalid-state error.) -/
def linkGo (ctx : Ctx) (fuel : Nat) (entries : List (String × LinkEntry))
    (acc : List LinkField) : Except String (List LinkField) :=
  match fuel with
  | 0 => .error fuelMsg
  | f + 1 =>
    match entries with
    | [] => .ok acc
    | (_, e) :: rest =>
      let baseName := e.selectedFieldType.baseName
      match ctx.schema.getType baseName with
      | none => .error ("Invalid state! Schema type " ++ baseName ++
          " is not a valid GraphQL object!")
      | some realSelectedFieldType =>
        match transformSelectionSet ctx f realSelectedFieldType e.field.sels with
        | .error err => .error err
        | .ok child =>
          let lf : LinkField :=
            ⟨e.field.al, e.field.nm, baseName,
              ctx.wrapTypeWithModifiers (indentSub child) e.selectedFieldType⟩
          linkGo ctx f rest (acc ++ [lf])

end

/-! ## Federation (federation.ts) -/

/-- A directive occurrence on a type or field: its name and its arguments
(argument name paired with the argument's string value). -/
structure Directive where
  name : String
  arguments : List (String × String)

/-- A field definition node of a federation-decorated schema
(`FieldDefinitionNode` plus its resolved output type). -/
structure FedField where
  name : String
  type : GQLType
  directives : List Directive

/-- An object type of a federation-decorated schema (name, directives and
fields, as read from its AST node). -/
structure FedObjectType where
  name : String
  directives : List Directive
  fields : List FedField

/-- A `FieldSetItem` (federation.ts lines 5-8). -/
structure FieldSetItem where
  name : String
  required : Bool

/-- `getDirectivesByName` (federation.ts lines 326-340). -/
def getDirectivesByName (nm : String) (ds : List Directive) : List Directive :=
  ds.filter (fun d => d.name = nm)

/-- Model of JavaScript `s.startsWith(p)` (structural, so that concrete
evaluations reduce). -/
def strStartsWith (s p : String) : Bool :=
  p.toList.isPrefixOf s.toList

/-- `isFederationObjectType` (federation.ts lines 306-315): not a root type,
not an introspection type, and carrying a `key` directive. -/
def isFederationObjectType (t : FedObjectType) : Bool :=
  (t.name ∉ ["Query", "Mutation", "Subscription"]) &&
  !(strStartsWith t.name "__") &&
  t.directives.any (fun d => d.name = "key")

/-- The recursion of `deduplicate`, carrying the elements seen so far. -/
def dedupGo : List String → List String → List String
  | [], _ => []
  | x :: xs, seen => if x ∈ seen then dedupGo xs seen else x :: dedupGo xs (x :: seen)

/-- `deduplicate` (federation.ts lines 317-319): keep the first occurrence of
each element. -/
def deduplicate (items : List String) : List String :=
  dedupGo items []

/-- A whitespace character as matched by the `\s` class of the field-set
splitting regex (the ASCII cases; the selection of further Unicode space
characters matched by JavaScript is irrelevant to the arguments considered
here). -/
def isWsChar (c : Char) : Bool :=
  c = ' ' || c = Char.ofNat 9 || c = Char.ofNat 10 ||
  c = Char.ofNat 12 || c = Char.ofNat 13

/-- The maximal non-whitespace runs of a character list, in order. -/
def wsTokensGo : List Char → List Char → List String
  | [], cur => if cur.isEmpty then [] else [String.mk cur.reverse]
  | c :: rest, cur =>
    if isWsChar c then
      if cur.isEmpty then wsTokensGo rest []
      else String.mk cur.reverse :: wsTokensGo rest []
    else wsTokensGo rest (c :: cur)

/-- Model of JavaScript `value.split(/\s+/g)`: the maximal non-whitespace
runs, with an additional empty field at the front when the string starts
with whitespace and at the back when it ends with whitespace; the empty
string splits to a single empty field. -/
def jsSplitWs (s : String) : List String :=
  if s.isEmpty then [""]
  else
    let cs := s.toList
    (if isWsChar (cs.headD 'A') then [""] else []) ++
    wsTokensGo cs [] ++
    (if isWsChar (cs.getLastD 'A') then [""] else [])

/-- Whether a string contains a brace character (the test
`/[\{\}]+/gi.test(value)` of line 269). -/
def containsBrace (s : String) : Bool :=
  s.toList.any (fun c => c = Char.ofNat 123 || c = Char.ofNat 125)

/-- `ApolloFederation.extractFieldSet` (federation.ts lines 265-274): read
the `fields` argument (a `TypeError` when the directive has no such
argument), reject a value containing brace characters as unsupported nested
field sets, and otherwise split the value on whitespace and deduplicate. -/
def extractFieldSet (d : Directive) : Except String (List String) :=
  match d.arguments.find? (fun a => a.1 = "fields") with
  | none => .error "TypeError: Cannot read property value of undefined"
  | some a =>
    if containsBrace a.2 then .error "Nested fields in _FieldSet is not supported"
    else .ok (deduplicate (jsSplitWs a.2))

/-- `ApolloFederation.translateFieldSet` (federation.ts lines 259-263). -/
def translateFieldSet (fields : List FieldSetItem) (parentTypeRef : String) : String :=
  "Pick<" ++ parentTypeRef ++ ", " ++
    joinSep " | " (fields.map (fun f => squo ++ f.name ++ squo)) ++ ">"

/-- The federation component's state: the `enabled` flag and the
provides map (concrete type name to the field names provided for it). -/
structure ApolloFederation where
  enabled : Bool
  providesMap : List (String × List String)

/-- `ApolloFederation.filterTypeNames` (lines 159-161). -/
def filterTypeNames (fed : ApolloFederation) (typeNames : List String) : List String :=
  if fed.enabled then typeNames.filter (fun t => t ≠ "_FieldSet") else typeNames

/-- `ApolloFederation.filterFieldNames` (lines 167-169). -/
def filterFieldNames (fed : ApolloFederation) (fieldNames : List String) : List String :=
  if fed.enabled then fieldNames.filter (fun t => t ≠ "__resolveReference") else fieldNames

/-- `ApolloFederation.skipDirective` (lines 175-177). -/
def skipDirective (fed : ApolloFederation) (nm : String) : Bool :=
  fed.enabled && nm ∈ ["external", "requires", "provides", "key"]

/-- `ApolloFederation.skipScalar` (lines 183-185). -/
def skipScalar (fed : ApolloFederation) (nm : String) : Bool :=
  fed.enabled && nm = "_FieldSet"

/-- `ApolloFederation.isExternal` (lines 245-247). -/
def isExternal (f : FedField) : Bool :=
  !(getDirectivesByName "external" f.directives).isEmpty

/-- `ApolloFederation.hasProvides` (lines 249-257). -/
def hasProvides (fed : ApolloFederation) (t : FedObjectType) (f : FedField) : Bool :=
  match lookupRec fed.providesMap t.name with
  | some fs => if !fs.isEmpty then f.name ∈ fs else false
  | none => false

/-- `ApolloFederation.skipField` (lines 191-197); the parent passed by the
callers of interest is an object type, so the `isObjectType` test of the
source holds by construction here. -/
def skipField (fed : ApolloFederation) (fieldNode : FedField) (parentType : FedObjectType) : Bool :=
  if !fed.enabled || !isFederationObjectType parentType then false
  else isExternal fieldNode && !hasProvides fed parentType fieldNode

/-- The `.map(this.extractFieldSet)` applied to a directive list (lines
211-213 and 220-223): extraction of every directive's field set, aborting at
the first thrown error. -/
def extractAllFieldSets : List Directive → Except String (List (List String))
  | [] => .ok []
  | d :: rest =>
    match extractFieldSet d with
    | .error e => .error e
    | .ok ns =>
      match extractAllFieldSets rest with
      | .error e => .error e
      | .ok rest' => .ok (ns :: rest')

/-- The per-name resolution of a `requires` field set (lines 214-216): each
named field is looked up on the parent type — reading `.type` of an absent
field is a `TypeError` — and its requiredness is the non-null-ness of the
schema type. -/
def resolveRequires (p : FedObjectType) : List String → Except String (List FieldSetItem)
  | [] => .ok []
  | n :: rest =>
    match p.fields.find? (fun f => f.name = n) with
    | some fd =>
      match resolveRequires p rest with
      | .error e => .error e
      | .ok rest' => .ok (⟨n, isNonNullType fd.type⟩ :: rest')
    | none => .error "TypeError: Cannot read property type of undefined"

/-- The `keys.map(...)` of lines 220-223: one projection per `key` directive,
every extracted field name marked required. -/
def buildPrimaryKeys (sig : String) : List Directive → Except String (List String)
  | [] => .ok []
  | d :: rest =>
    match extractFieldSet d with
    | .error e => .error e
    | .ok ns =>
      match buildPrimaryKeys sig rest with
      | .error e => .error e
      | .ok rest' =>
        .ok (translateFieldSet (ns.map (fun n => (⟨n, true⟩ : FieldSetItem))) sig :: rest')

/-- `ApolloFederation.translateParentType` (federation.ts lines 203-239):
for the synthesized `__resolveReference` field of a federation object type,
build one projection per `key` directive (all its field names required),
parenthesise and union them when there are several, and intersect the
`requires` projection onto the result when the field carries `requires`
annotations; in every other situation the given parent type signature is
returned unchanged. -/
def translateParentType (fed : ApolloFederation) (fieldNode : FedField)
    (parentType : FedObjectType) (parentTypeSignature : String) : Except String String :=
  if fed.enabled && isFederationObjectType parentType &&
      fieldNode.name = "__resolveReference" then
    let keys := getDirectivesByName "key" parentType.directives
    if keys.isEmpty then .ok parentTypeSignature
    else
      match extractAllFieldSets (getDirectivesByName "requires" fieldNode.directives) with
      | .error e => .error e
      | .ok reqSets =>
        match resolveRequires parentType reqSets.flatten with
        | .error e => .error e
        | .ok requires =>
          let requiredFields := translateFieldSet requires parentTypeSignature
          match buildPrimaryKeys parentTypeSignature keys with
          | .error e => .error e
          | .ok primaryKeys =>
            let op := if primaryKeys.length > 1 then "(" else ""
            let cl := if primaryKeys.length > 1 then ")" else ""
            let outputs := [op ++ joinSep " | " primaryKeys ++ cl] ++
              (if requires.isEmpty then [] else ["& " ++ requiredFields])
            .ok (joinSep " " outputs)
  else .ok parentTypeSignature

/-! ## Concrete fixtures

A small schema (`interface Node { id }`, `type Dog implements Node`,
`type Cat implements Node`), a concrete processor instance (the processor is
an external pluggable collaborator; this instance renders every primitive as
`any` and every link field by its composed child expression), and concrete
federation data.  These are used by the witness and counterexample
theorems. -/

def idF : FieldDef := ⟨"id", GQLType.nonNull (GQLType.named "ID")⟩

def nodeT : SchemaTypeDef := SchemaTypeDef.intf "Node" [idF]

def dogT : SchemaTypeDef :=
  SchemaTypeDef.object "Dog" ["Node"]
    [idF, ⟨"bark", GQLType.named "String"⟩, ⟨"friend", GQLType.named "Dog"⟩] none

def catT : SchemaTypeDef :=
  SchemaTypeDef.object "Cat" ["Node"]
    [idF, ⟨"meow", GQLType.named "String"⟩] none

def schemaC : GQLSchema :=
  ⟨[nodeT, dogT, catT, SchemaTypeDef.scalar "String", SchemaTypeDef.scalar "ID"]⟩

def ctxC : Ctx where
  schema := schemaC
  loadedFragments := [⟨"PetParts", "Node"⟩, ⟨"DogParts", "Dog"⟩]
  dedupeOperationSuffix := false
  addTypename := false
  nonOptionalTypename := false
  convertName := fun n suffix => n ++ suffix
  formatNamedField := fun n => n
  wrapTypeWithModifiers := fun s _ => s
  transformTypenameField := fun ty nm => [ProcessItem.pair nm ty]
  transformPrimitiveFields := fun _ ns => ns.map (fun n => ProcessItem.pair n "any")
  transformAliasesPrimitiveFields := fun _ ps => ps.map (fun p => ProcessItem.pair p.1 "any")
  transformLinkFields := fun lfs =>
    lfs.map (fun lf => ProcessItem.pair (lf.aliasName.getD lf.name) lf.selectionSet)

def fedDogP : FedObjectType :=
  ⟨"Product",
    [⟨"key", [("fields", "id")]⟩],
    [⟨"id", GQLType.nonNull (GQLType.named "ID"), []⟩,
     ⟨"sku", GQLType.named "String", []⟩,
     ⟨"price", GQLType.nonNull (GQLType.named "Int"), []⟩]⟩

def fedRefF : FedField := ⟨"__resolveReference", GQLType.named "Product", []⟩

/-! ## Derived notions used by the statements -/

/-- A link-field candidate: a selected field carrying a nested selection
set, as it occurs syntactically among one concrete type's collected
nodes. -/
structure LinkCand where
  al : Option String
  nm : String
  sels : List Sel

/-- The candidates among a node list, in order. -/
def linkCands (nodes : List SNode) : List LinkCand :=
  nodes.filterMap (fun n => match n with
    | SNode.sel (Sel.field al nm (some sels)) => some ⟨al, nm, sels⟩
    | _ => none)

/-- The response key of a candidate. -/
def candKey (c : LinkCand) : String :=
  responseKey c.al c.nm

/-- The effect of one candidate on the link-map entry kept at its response
key: a first occurrence creates the entry (with the resolved schema field's
type); a later occurrence merges its child selections into the stored
field. -/
def applyCand (parent : SchemaTypeDef) (e? : Option LinkEntry) (c : LinkCand) :
    Option LinkEntry :=
  match e? with
  | none =>
    match resolveSelectedField parent c.nm with
    | some fd => some ⟨fd.type, ⟨c.al, c.nm, c.sels⟩⟩
    | none => none
  | some e =>
    some ⟨e.selectedFieldType, ⟨e.field.al, e.field.nm, mergeSels e.field.sels c.sels⟩⟩

/-- The effect of a candidate sequence on a link-map entry. -/
def applyCands (parent : SchemaTypeDef) (e? : Option LinkEntry) (cs : List LinkCand) :
    Option LinkEntry :=
  cs.foldl (applyCand parent) e?

/-- A selected field that makes the classification fail: it carries a nested
selection set and resolves to no schema field — its name is neither a field
of the parent type nor a reserved metadata field name. -/
def isBadLink (parent : SchemaTypeDef) (n : SNode) : Bool :=
  match n with
  | SNode.sel (Sel.field _ nm (some _)) => (resolveSelectedField parent nm).isNone
  | _ => false

/-- Append a key to an ordered key set unless already present (the key
behaviour of the grouped-record accumulator). -/
def insertNewKey (ks : List String) (k : String) : List String :=
  if k ∈ ks then ks else ks ++ [k]

/-! ## Claim C1 -/

/-- Claim C1 (code bug): on the SDL-style schema `interface Node { id }`,
`type Dog implements Node { id bark friend }`, collecting the inline
fragment `... on Node { id }` under the concrete object parent `Dog` does
not attach the fragment's fields to `Dog` as the spec states; the
object-parent branch evaluates `parentType.isTypeOf(typeOnSchema, null,
null)` — the optional runtime hook, `undefined` for SDL-built schemas — so
the run aborts with a `TypeError` instead of performing the interface-scoped
narrowing. -/
theorem c1_interface_condition_on_object_parent_crashes :
    collectInlineFragments ctxC 10 dogT
      [Sel.inline (some "Node") [Sel.field none "id" none]] [] =
      Except.error isTypeOfMsg := by
  rfl

/-! ## Claim C5 -/

/-- Claim C5: the discriminant emission policy of `buildTypeNameField` as a
function of the three inputs (non-optional-typename flag `b1`, always-add
flag `b2`, explicitly-queried flag `b3`), with the identity field-name
formatter: all flags false and not queried — omitted; explicitly queried —
present and non-optional; non-optional flag set — present and non-optional
regardless of querying; only the always-add flag set and not queried —
present but optional. -/
theorem c5_typename_field_policy (tn : String) (b1 b2 b3 : Bool) :
    (b1 = false ∧ b2 = false ∧ b3 = false →
      buildTypeNameField (fun n => n) tn b1 b2 b3 = none) ∧
    (b3 = true →
      buildTypeNameField (fun n => n) tn b1 b2 b3 =
        some ("__typename", squo ++ tn ++ squo)) ∧
    (b1 = true →
      buildTypeNameField (fun n => n) tn b1 b2 b3 =
        some ("__typename", squo ++ tn ++ squo)) ∧
    (b1 = false ∧ b2 = true ∧ b3 = false →
      buildTypeNameField (fun n => n) tn b1 b2 b3 =
        some ("__typename?", squo ++ tn ++ squo)) := by
  cases b1 <;> cases b2 <;> cases b3 <;>
    simp [buildTypeNameField, String.append_empty]

/-- Witness for C5 at a concrete input: with only the always-add flag set and
the field not queried, the emitted field is the optional `__typename?`. -/
theorem c5_typename_field_policy_witness :
    buildTypeNameField (fun n => n) "Dog" false true false =
      some ("__typename?", squo ++ "Dog" ++ squo) :=
  (c5_typename_field_policy "Dog" false true false).2.2.2 ⟨rfl, rfl, rfl⟩

/-! ## Claim C7 -/

/-- Claim C7: field-set extraction from a federation directive argument
fails exactly when the argument string contains a brace character, and
otherwise returns the whitespace-split, first-occurrence-deduplicated
names. -/
theorem c7_extract_field_set (d : Directive) (arg : String × String)
    (hfind : d.arguments.find? (fun a => a.1 = "fields") = some arg) :
    ((∃ e, extractFieldSet d = Except.error e) ↔ containsBrace arg.2 = true) ∧
    (containsBrace arg.2 = false →
      extractFieldSet d = Except.ok (deduplicate (jsSplitWs arg.2))) := by
  unfold extractFieldSet
  rw [hfind]
  cases hcb : containsBrace arg.2 <;> simp [hcb]

/-- Witness for C7 at concrete inputs: a brace-free field set is split on
whitespace and deduplicated; a field set containing braces is rejected. -/
theorem c7_extract_field_set_witness :
    extractFieldSet ⟨"key", [("fields", "a b a")]⟩ = Except.ok ["a", "b"] ∧
    (∃ e, extractFieldSet ⟨"requires", [("fields", "a \x7b b \x7d")]⟩ =
      Except.error e) := by
  constructor
  · have h := (c7_extract_field_set ⟨"key", [("fields", "a b a")]⟩
      ("fields", "a b a") rfl).2 rfl
    rw [h]
    rfl
  · exact (c7_extract_field_set ⟨"requires", [("fields", "a \x7b b \x7d")]⟩
      ("fields", "a \x7b b \x7d") rfl).1.mpr rfl

/-! ## Claim C10 -/

/-- Claim C10: with the federation component disabled, every exposed
operation is a no-op: the three skip predicates return `false`, the two
filters return their argument unchanged, and `translateParentType` returns
the given parent-type signature unchanged. -/
theorem c10_disabled_noop (fed : ApolloFederation) (f : FedField)
    (p : FedObjectType) (sig dname sname : String) (ns fs : List String)
    (h : fed.enabled = false) :
    skipField fed f p = false ∧
    skipDirective fed dname = false ∧
    skipScalar fed sname = false ∧
    filterTypeNames fed ns = ns ∧
    filterFieldNames fed fs = fs ∧
    translateParentType fed f p sig = Except.ok sig := by
  refine ⟨?_, ?_, ?_, ?_, ?_, ?_⟩ <;>
    simp [skipField, skipDirective, skipScalar, filterTypeNames,
      filterFieldNames, translateParentType, h]

/-- Witness for C10 at concrete inputs: the disabled component neither skips
the federation scalar nor rewrites the parent type signature of a federation
object's entity-resolution field. -/
theorem c10_disabled_noop_witness :
    skipScalar ⟨false, []⟩ "_FieldSet" = false ∧
    translateParentType ⟨false, []⟩ fedRefF fedDogP "ParentType" =
      Except.ok "ParentType" :=
  ⟨(c10_disabled_noop ⟨false, []⟩ fedRefF fedDogP "ParentType" "d" "s" [] [] rfl).2.2.1,
   (c10_disabled_noop ⟨false, []⟩ fedRefF fedDogP "ParentType" "d" "s" [] [] rfl).2.2.2.2.2⟩

/-! ## Claim C2: counterexample -/

/-- Counterexample to claim C2 as stated: for the empty raw selection on the
parent `Dog`, the grouped per-concrete-type collection is the empty record,
although `Dog` itself belongs to the parent's possible-types set — so a
concrete type of the set gets no entry at all. -/
theorem c2_counterexample_empty_selection :
    buildGroupedSelections ctxC 10 dogT [] = Except.ok [] ∧
    (getPossibleTypes ctxC.schema dogT).map SchemaTypeDef.nameOf = ["Dog"] ∧
    "Dog" ∉ keysOf ([] : List (String × List String)) := by
  refine ⟨rfl, rfl, ?_⟩
  simp [keysOf]

/-! ## Claim C8: counterexample -/

/-- Counterexample to claim C8 as stated: the selected field `bogus` does not
exist on the resolved concrete type `Dog` and is not a reserved metadata
field, yet — because the field carries no nested selection set — the
transformation succeeds instead of failing with a fatal error. -/
theorem c8_counterexample_primitive_bogus :
    buildSelectionSetString ctxC 5 dogT [SNode.sel (Sel.field none "bogus" none)] =
      Except.ok (some "\x7b bogus: any \x7d") ∧
    dogT.getFields.find? (fun f => f.name = "bogus") = none ∧
    isMetadataFieldName "bogus" = false := by
  exact ⟨rfl, rfl, rfl⟩

/-! ## Association-list lemmas -/

theorem keysOf_nil {α : Type} : keysOf ([] : List (String × α)) = [] := rfl

theorem keysOf_cons {α : Type} (p : String × α) (l : List (String × α)) :
    keysOf (p :: l) = p.1 :: keysOf l := rfl

theorem any_key_iff {α : Type} (l : List (String × α)) (k : String) :
    l.any (fun p => p.1 = k) = true ↔ k ∈ keysOf l := by
  induction l with
  | nil => simp [keysOf]
  | cons p rest ih =>
    rw [List.any_cons, Bool.or_eq_true, decide_eq_true_eq, ih, keysOf_cons, List.mem_cons]
    exact or_congr eq_comm Iff.rfl

theorem lookupRec_eq_none_iff {α : Type} (l : List (String × α)) (k : String) :
    lookupRec l k = none ↔ k ∉ keysOf l := by
  induction l with
  | nil => simp [lookupRec, keysOf]
  | cons p rest ih =>
    by_cases h : p.1 = k
    · subst h
      simp [lookupRec, keysOf_cons]
    · rw [lookupRec, if_neg h, ih, keysOf_cons, List.mem_cons, not_or]
      constructor
      · intro hn
        exact ⟨fun he => h he.symm, hn⟩
      · exact fun hn => hn.2

theorem lookupRec_append_self {α : Type} (l : List (String × α)) (k : String) (v : α)
    (h : lookupRec l k = none) : lookupRec (l ++ [(k, v)]) k = some v := by
  induction l with
  | nil => simp [lookupRec]
  | cons p rest ih =>
    by_cases hpk : p.1 = k
    · rw [lookupRec, if_pos hpk] at h
      exact absurd h (by simp)
    · rw [lookupRec, if_neg hpk] at h
      rw [List.cons_append, lookupRec, if_neg hpk]
      exact ih h

theorem lookupRec_append_ne {α : Type} (l : List (String × α)) (k : String) (v : α)
    (k' : String) (h : k' ≠ k) : lookupRec (l ++ [(k, v)]) k' = lookupRec l k' := by
  induction l with
  | nil =>
    rw [List.nil_append, lookupRec, lookupRec]
    exact if_neg (fun he => h he.symm)
  | cons p rest ih =>
    rw [List.cons_append, lookupRec, lookupRec]
    by_cases hpk : p.1 = k'
    · rw [if_pos hpk, if_pos hpk]
    · rw [if_neg hpk, if_neg hpk]
      exact ih

theorem lookupRec_mapSet_self {α : Type} (l : List (String × α)) (k : String) (v : α)
    (h : k ∈ keysOf l) : lookupRec (mapSet l k v) k = some v := by
  rw [mapSet, if_pos ((any_key_iff l k).mpr h)]
  induction l with
  | nil => simp [keysOf] at h
  | cons p rest ih =>
    by_cases hpk : p.1 = k
    · rw [List.map_cons, if_pos hpk, lookupRec]
      exact if_pos hpk
    · rw [List.map_cons, if_neg hpk, lookupRec, if_neg hpk]
      refine ih ?_
      rw [keysOf_cons, List.mem_cons] at h
      rcases h with he | hm
      · exact absurd he.symm hpk
      · exact hm

theorem lookupRec_map_upd_ne {α : Type} (l : List (String × α)) (k : String) (v : α)
    (k' : String) (h : k' ≠ k) :
    lookupRec (l.map (fun p => if p.1 = k then (p.1, v) else p)) k' = lookupRec l k' := by
  induction l with
  | nil => rfl
  | cons p rest ih =>
    rw [List.map_cons, lookupRec, lookupRec]
    by_cases hpk : p.1 = k
    · rw [if_pos hpk]
      have hne : p.1 ≠ k' := fun he => h (he.symm.trans hpk)
      rw [if_neg hne, if_neg hne]
      exact ih
    · rw [if_neg hpk]
      by_cases hpk' : p.1 = k'
      · rw [if_pos hpk', if_pos hpk']
      · rw [if_neg hpk', if_neg hpk']
        exact ih

theorem lookupRec_mapSet_ne {α : Type} (l : List (String × α)) (k : String) (v : α)
    (k' : String) (h : k' ≠ k) : lookupRec (mapSet l k v) k' = lookupRec l k' := by
  rw [mapSet]
  by_cases hany : l.any (fun p => p.1 = k) = true
  · rw [if_pos hany]
    exact lookupRec_map_upd_ne l k v k' h
  · rw [if_neg hany]
    exact lookupRec_append_ne l k v k' h

theorem keysOf_append {α : Type} (l l' : List (String × α)) :
    keysOf (l ++ l') = keysOf l ++ keysOf l' := by
  simp [keysOf]

theorem keysOf_map_preserving {α : Type} (l : List (String × α))
    (f : String × α → String × α) (hf : ∀ p, (f p).1 = p.1) :
    keysOf (l.map f) = keysOf l := by
  simp only [keysOf, List.map_map]
  exact List.map_congr_left (fun p _ => hf p)

theorem keysOf_mapSet {α : Type} (l : List (String × α)) (k : String) (v : α)
    (h : k ∈ keysOf l) : keysOf (mapSet l k v) = keysOf l := by
  rw [mapSet, if_pos ((any_key_iff l k).mpr h)]
  exact keysOf_map_preserving l _ (fun p => by by_cases hpk : p.1 = k <;> simp [hpk])

/-! ## Claim C2 -/

theorem mem_insertNewKey (ks : List String) (k tn : String) :
    tn ∈ insertNewKey ks k ↔ tn ∈ ks ∨ tn = k := by
  rw [insertNewKey]
  by_cases h : k ∈ ks
  · rw [if_pos h]
    constructor
    · exact Or.inl
    · rintro (h1 | h1)
      · exact h1
      · exact h1 ▸ h
  · rw [if_neg h]
    simp

theorem foldl_insertNewKey_mem (ns : List String) :
    ∀ (ks : List String) (tn : String),
      tn ∈ ns.foldl insertNewKey ks ↔ tn ∈ ks ∨ tn ∈ ns := by
  induction ns with
  | nil => simp
  | cons n rest ih =>
    intro ks tn
    rw [List.foldl_cons, ih, mem_insertNewKey, List.mem_cons]
    tauto

theorem foldl_insertNewKey_fresh (ns : List String) :
    ∀ ks : List String, ns.Nodup → (∀ n ∈ ns, n ∉ ks) →
      ns.foldl insertNewKey ks = ks ++ ns := by
  induction ns with
  | nil => simp
  | cons n rest ih =>
    intro ks hnd hf
    rw [List.foldl_cons, insertNewKey, if_neg (hf n (List.mem_cons_self n rest))]
    rw [ih (ks ++ [n]) (List.Nodup.of_cons hnd) ?_]
    · simp
    · intro m hm
      rw [List.mem_append, List.mem_singleton]
      rintro (hmk | hmn)
      · exact hf m (List.mem_cons_of_mem n hm) hmk
      · exact (List.nodup_cons.mp hnd).1 (hmn ▸ hm)

/-- The key effect of one iteration of the grouped-record accumulator. -/
theorem keysOf_grouped_step (acc : List (String × List String)) (tn : String)
    (ts? : Option String) :
    keysOf (match ts? with
      | some s => (if acc.any (fun p => p.1 = tn) then acc
          else acc ++ [(tn, [])]).map
          (fun p => if p.1 = tn then (p.1, p.2 ++ [s]) else p)
      | none => if acc.any (fun p => p.1 = tn) then acc else acc ++ [(tn, [])])
    = insertNewKey (keysOf acc) tn := by
  have hens : keysOf (if acc.any (fun p => p.1 = tn) then acc else acc ++ [(tn, [])]) =
      insertNewKey (keysOf acc) tn := by
    by_cases h : acc.any (fun p => p.1 = tn) = true
    · rw [if_pos h, insertNewKey, if_pos ((any_key_iff acc tn).mp h)]
    · rw [if_neg h, keysOf_append, insertNewKey,
        if_neg (fun hm => h ((any_key_iff acc tn).mpr hm))]
      rfl
  cases ts? with
  | none => exact hens
  | some s =>
    rw [keysOf_map_preserving _ _
      (fun p => by by_cases hpk : p.1 = tn <;> simp [hpk])]
    exact hens

/-- The keys accumulated by the grouped-record loop: one `insertNewKey` per
possible type, in order, whatever the selections contribute. -/
theorem groupedGo_keys (ctx : Ctx) (pts : List SchemaTypeDef) :
    ∀ (fuel : Nat) (types : TypeMap) (acc g : List (String × List String)),
      groupedGo ctx fuel types pts acc = Except.ok g →
      keysOf g = pts.foldl (fun ks t => insertNewKey ks t.nameOf) (keysOf acc) := by
  induction pts with
  | nil =>
    intro fuel types acc g h
    cases fuel with
    | zero => exact absurd h (by simp [groupedGo])
    | succ f =>
      simp only [groupedGo] at h
      cases h
      rfl
  | cons t rest ih =>
    intro fuel types acc g h
    cases fuel with
    | zero => exact absurd h (by simp [groupedGo])
    | succ f =>
      simp only [groupedGo] at h
      split at h
      · rename_i st hst
        split at h
        · rename_i hobj
          split at h
          · exact absurd h (by simp)
          · rename_i ts hts
            rw [List.foldl_cons, ← keysOf_grouped_step acc t.nameOf ts]
            exact ih f types _ g h
        · exact absurd h (by simp)
      · exact absurd h (by simp)

/-- Claim C2 (amended): for every parent schema type and every nonempty raw
selection on which the transformation succeeds, the grouped per-concrete-type
collection covers exactly the parent's possible-types set — a concrete type
of the set always has an entry (possibly with an empty item list), no entry
exists for a type outside the set, and with distinct possible-type names the
entries are exactly the possible types in order. -/
theorem c2_type_map_covers_possible_types (ctx : Ctx) (fuel : Nat)
    (parent : SchemaTypeDef) (sels : List Sel) (g : List (String × List String))
    (hne : sels ≠ [])
    (h : buildGroupedSelections ctx fuel parent sels = Except.ok g) :
    (∀ tn, tn ∈ keysOf g ↔
      tn ∈ (getPossibleTypes ctx.schema parent).map SchemaTypeDef.nameOf) ∧
    (((getPossibleTypes ctx.schema parent).map SchemaTypeDef.nameOf).Nodup →
      keysOf g = (getPossibleTypes ctx.schema parent).map SchemaTypeDef.nameOf) := by
  cases fuel with
  | zero => exact absurd h (by simp [buildGroupedSelections])
  | succ f =>
    simp only [buildGroupedSelections] at h
    have hie : sels.isEmpty = false := by
      cases sels with
      | nil => exact absurd rfl hne
      | cons a l => rfl
    rw [hie] at h
    simp only [Bool.false_eq_true, if_false] at h
    split at h
    · exact absurd h (by simp)
    · rename_i types hty
      have hkeys := groupedGo_keys ctx (getPossibleTypes ctx.schema parent) f types [] g h
      rw [keysOf_nil] at hkeys
      have hfold : (getPossibleTypes ctx.schema parent).foldl
          (fun ks t => insertNewKey ks t.nameOf) ([] : List String) =
          ((getPossibleTypes ctx.schema parent).map SchemaTypeDef.nameOf).foldl
            insertNewKey [] := by
        rw [List.foldl_map]
      constructor
      · intro tn
        rw [hkeys, hfold, foldl_insertNewKey_mem]
        simp
      · intro hnd
        rw [hkeys, hfold, foldl_insertNewKey_fresh _ [] hnd (by simp)]
        simp

/-- Witness for C2 at a concrete input: on the selection `{ id }` against the
interface parent `Node`, the grouped collection holds exactly the entries
`Dog` and `Cat` — the parent's possible types, in order. -/
theorem c2_type_map_covers_possible_types_witness :
    keysOf [("Dog", ["\x7b id: any \x7d"]), ("Cat", ["\x7b id: any \x7d"])] =
      (getPossibleTypes ctxC.schema nodeT).map SchemaTypeDef.nameOf :=
  (c2_type_map_covers_possible_types ctxC 10 nodeT [Sel.field none "id" none]
    [("Dog", ["\x7b id: any \x7d"]), ("Cat", ["\x7b id: any \x7d"])]
    (by simp) (by rfl)).2 (by decide)

/-! ## Claim C4 -/

/-- Claim C4: the top-level composition over all concrete types.  Writing
`bs` for the per-type composed fragments that are non-null (one branch per
contributing concrete type, taken from the grouped record in its
possible-types order): zero contributing types yield the empty result; a
single contributing type yields its expression bare, never wrapped in a
one-branch union; several contributing types yield the explicit union of the
branches. -/
theorem c4_union_composition (ctx : Ctx) (fuel : Nat) (parent : SchemaTypeDef)
    (sels : List Sel) (g : List (String × List String)) (bs : List String)
    (hg : buildGroupedSelections ctx fuel parent sels = Except.ok g)
    (hbs : bs = g.filterMap (fun p => composeBranch p.2)) :
    transformSelectionSet ctx (fuel + 1) parent sels = Except.ok (joinSep " | " bs) ∧
    (bs = [] → transformSelectionSet ctx (fuel + 1) parent sels = Except.ok "") ∧
    (∀ b, bs = [b] → transformSelectionSet ctx (fuel + 1) parent sels = Except.ok b) ∧
    (2 ≤ bs.length → transformSelectionSet ctx (fuel + 1) parent sels =
      Except.ok (joinSep " | " bs)) := by
  have h1 : transformSelectionSet ctx (fuel + 1) parent sels =
      Except.ok (joinSep " | " bs) := by
    simp only [transformSelectionSet, hg]
    rw [hbs]
  refine ⟨h1, ?_, ?_, fun _ => h1⟩
  · intro hb
    rw [hb] at h1
    exact h1
  · intro b hb
    rw [hb] at h1
    exact h1

/-- Witness for C4 at concrete inputs: a polymorphic selection on `Node`
touching both `Dog` and `Cat` composes to an explicit two-branch union,
while the selection `{ bark }` on `Dog` — touching exactly one concrete
type — collapses to the bare record expression with no one-branch union. -/
theorem c4_union_composition_witness :
    transformSelectionSet ctxC 11 nodeT
      [Sel.field none "id" none,
       Sel.inline (some "Dog") [Sel.field none "bark" none],
       Sel.inline (some "Cat") [Sel.field none "meow" none]] =
      Except.ok ("\x7b bark: any, id: any \x7d | \x7b meow: any, id: any \x7d") ∧
    transformSelectionSet ctxC 11 dogT [Sel.field none "bark" none] =
      Except.ok "\x7b bark: any \x7d" := by
  constructor
  · exact (c4_union_composition ctxC 10 nodeT
      [Sel.field none "id" none,
       Sel.inline (some "Dog") [Sel.field none "bark" none],
       Sel.inline (some "Cat") [Sel.field none "meow" none]]
      [("Dog", ["\x7b bark: any, id: any \x7d"]), ("Cat", ["\x7b meow: any, id: any \x7d"])]
      ["\x7b bark: any, id: any \x7d", "\x7b meow: any, id: any \x7d"]
      (by rfl) (by rfl)).2.2.2 (by decide)
  · exact (c4_union_composition ctxC 10 dogT [Sel.field none "bark" none]
      [("Dog", ["\x7b bark: any \x7d"])] ["\x7b bark: any \x7d"]
      (by rfl) (by rfl)).2.2.1 "\x7b bark: any \x7d" rfl

/-! ## Claim C3 -/

theorem lookupRec_some_mem_keys {α : Type} (l : List (String × α)) (k : String) (v : α)
    (h : lookupRec l k = some v) : k ∈ keysOf l := by
  by_contra hk
  rw [(lookupRec_eq_none_iff l k).mpr hk] at h
  exact absurd h (by simp)

theorem nodup_keys_append_fresh {α : Type} (l : List (String × α)) (k : String) (v : α)
    (h1 : (keysOf l).Nodup) (h2 : k ∉ keysOf l) :
    (keysOf (l ++ [(k, v)])).Nodup := by
  rw [keysOf_append]
  refine List.Nodup.append h1 (List.nodup_singleton k) ?_
  intro a ha hm
  simp only [keysOf, List.map_cons, List.map_nil, List.mem_singleton] at hm
  exact h2 (hm ▸ ha)

theorem applyCands_nil (parent : SchemaTypeDef) (e? : Option LinkEntry) :
    applyCands parent e? [] = e? := rfl

theorem applyCands_cons (parent : SchemaTypeDef) (e? : Option LinkEntry)
    (c : LinkCand) (cs : List LinkCand) :
    applyCands parent e? (c :: cs) = applyCands parent (applyCand parent e? c) cs := rfl

/-- Folding candidates onto an existing entry only ever appends their child
selections: the stored alias, name and field type of the first occurrence are
preserved and every later child selection is appended in order. -/
theorem applyCands_from_some (parent : SchemaTypeDef) (t : GQLType)
    (al : Option String) (nm : String) :
    ∀ (cs : List LinkCand) (ss : List Sel),
      applyCands parent (some ⟨t, ⟨al, nm, ss⟩⟩) cs =
        some ⟨t, ⟨al, nm, ss ++ (cs.map (fun c => c.sels)).flatten⟩⟩ := by
  intro cs
  induction cs with
  | nil =>
    intro ss
    rw [applyCands_nil]
    simp
  | cons c rest ih =>
    intro ss
    rw [applyCands_cons]
    have hstep : applyCand parent (some ⟨t, ⟨al, nm, ss⟩⟩) c =
        some ⟨t, ⟨al, nm, ss ++ c.sels⟩⟩ := rfl
    rw [hstep, ih (ss ++ c.sels)]
    simp [List.append_assoc]

/-- Every candidate of a successfully classified node list resolves to a
schema field. -/
theorem classifyGo_resolves (parent : SchemaTypeDef) :
    ∀ (nodes : List SNode) (st0 st : ClassifyState),
      classifyGo parent st0 nodes = Except.ok st →
      ∀ c ∈ linkCands nodes, ∃ fd, resolveSelectedField parent c.nm = some fd := by
  intro nodes
  induction nodes with
  | nil =>
    intro st0 st h c hc
    simp [linkCands] at hc
  | cons node rest ih =>
    intro st0 st h c hc
    simp only [classifyGo] at h
    split at h
    · exact absurd h (by simp)
    · rename_i st1 hstep
      cases node with
      | str s =>
        simp only [linkCands, List.filterMap_cons] at hc
        exact ih st1 st h c hc
      | sel s =>
        cases s with
        | inline cond sels =>
          simp only [linkCands, List.filterMap_cons] at hc
          exact ih st1 st h c hc
        | spread n =>
          simp only [linkCands, List.filterMap_cons] at hc
          exact ih st1 st h c hc
        | field al nm sub =>
          cases sub with
          | none =>
            simp only [linkCands, List.filterMap_cons] at hc
            exact ih st1 st h c hc
          | some sels =>
            simp only [linkCands, List.filterMap_cons, List.mem_cons] at hc
            rcases hc with hc | hc
            · subst hc
              simp only [classifyStep] at hstep
              split at hstep
              · exact absurd hstep (by simp)
              · rename_i fd hfd
                exact ⟨fd, hfd⟩
            · exact ih st1 st h c hc

/-- The link-map invariant of the classification loop: the entry kept at any
response key is the fold of all candidates carrying that key over the entry
the loop started from. -/
theorem classifyGo_links_inv (parent : SchemaTypeDef) :
    ∀ (nodes : List SNode) (st0 st : ClassifyState),
      classifyGo parent st0 nodes = Except.ok st →
      ∀ k, lookupRec st.links k =
        applyCands parent (lookupRec st0.links k)
          ((linkCands nodes).filter (fun c => candKey c = k)) := by
  intro nodes
  induction nodes with
  | nil =>
    intro st0 st h k
    simp only [classifyGo] at h
    cases h
    simp [linkCands, applyCands_nil]
  | cons node rest ih =>
    intro st0 st h k
    simp only [classifyGo] at h
    split at h
    · exact absurd h (by simp)
    · rename_i st1 hstep
      cases node with
      | str s =>
        have hl : st1.links = st0.links := by
          simp only [classifyStep] at hstep
          cases hstep
          rfl
        have hcands : linkCands (SNode.str s :: rest) = linkCands rest := by
          simp [linkCands]
        rw [hcands, ih st1 st h k, hl]
      | sel s =>
        cases s with
        | inline cond sels =>
          have hl : st1.links = st0.links := by
            simp only [classifyStep] at hstep
            cases hstep
            rfl
          have hcands : linkCands (SNode.sel (Sel.inline cond sels) :: rest) =
              linkCands rest := by
            simp [linkCands]
          rw [hcands, ih st1 st h k, hl]
        | spread n =>
          have hl : st1.links = st0.links := by
            simp only [classifyStep] at hstep
            cases hstep
            rfl
          have hcands : linkCands (SNode.sel (Sel.spread n) :: rest) =
              linkCands rest := by
            simp [linkCands]
          rw [hcands, ih st1 st h k, hl]
        | field al nm sub =>
          cases sub with
          | none =>
            have hl : st1.links = st0.links := by
              simp only [classifyStep] at hstep
              split at hstep
              · cases hstep
                rfl
              · split at hstep
                · cases hstep
                  rfl
                · cases hstep
                  rfl
            have hcands : linkCands (SNode.sel (Sel.field al nm none) :: rest) =
                linkCands rest := by
              simp [linkCands]
            rw [hcands, ih st1 st h k, hl]
          | some sels =>
            simp only [classifyStep] at hstep
            split at hstep
            · exact absurd hstep (by simp)
            · rename_i fd hfd
              have hcands : linkCands (SNode.sel (Sel.field al nm (some sels)) :: rest) =
                  (⟨al, nm, sels⟩ : LinkCand) :: linkCands rest := by
                simp [linkCands]
              rw [hcands]
              by_cases hck : candKey ⟨al, nm, sels⟩ = k
              · rw [List.filter_cons_of_pos (by simp [hck]), applyCands_cons]
                have hkey : responseKey al nm = k := hck
                split at hstep
                · rename_i hlk
                  cases hstep
                  have h0 : lookupRec st0.links k = none := hkey ▸ hlk
                  rw [ih _ st h k]
                  congr 1
                  have happ : applyCand parent (lookupRec st0.links k)
                      (⟨al, nm, sels⟩ : LinkCand) =
                      some ⟨fd.type, ⟨al, nm, sels⟩⟩ := by
                    rw [h0]
                    simp [applyCand, hfd]
                  rw [happ]
                  show lookupRec (st0.links ++
                    [(responseKey al nm, (⟨fd.type, ⟨al, nm, sels⟩⟩ : LinkEntry))]) k = _
                  rw [hkey]
                  exact lookupRec_append_self st0.links k _ h0
                · rename_i e hlk
                  cases hstep
                  have h0 : lookupRec st0.links k = some e := hkey ▸ hlk
                  rw [ih _ st h k]
                  congr 1
                  have happ : applyCand parent (lookupRec st0.links k)
                      (⟨al, nm, sels⟩ : LinkCand) =
                      some ⟨e.selectedFieldType,
                        ⟨e.field.al, e.field.nm, mergeSels e.field.sels sels⟩⟩ := by
                    rw [h0]
                    rfl
                  rw [happ]
                  show lookupRec (mapSet st0.links (responseKey al nm)
                    (⟨e.selectedFieldType,
                      ⟨e.field.al, e.field.nm, mergeSels e.field.sels sels⟩⟩ : LinkEntry)) k = _
                  rw [hkey]
                  exact lookupRec_mapSet_self st0.links k _
                    (lookupRec_some_mem_keys st0.links k e h0)
              · rw [List.filter_cons_of_neg (by simp [hck])]
                have hkey2 : k ≠ responseKey al nm := fun he => hck he.symm
                split at hstep
                · rename_i hlk
                  cases hstep
                  rw [ih _ st h k]
                  congr 1
                  exact lookupRec_append_ne st0.links (responseKey al nm) _ k hkey2
                · rename_i e hlk
                  cases hstep
                  rw [ih _ st h k]
                  congr 1
                  exact lookupRec_mapSet_ne st0.links (responseKey al nm) _ k hkey2

/-- The classification loop never duplicates a response key in the link
map. -/
theorem classifyGo_links_nodup (parent : SchemaTypeDef) :
    ∀ (nodes : List SNode) (st0 st : ClassifyState),
      classifyGo parent st0 nodes = Except.ok st →
      (keysOf st0.links).Nodup → (keysOf st.links).Nodup := by
  intro nodes
  induction nodes with
  | nil =>
    intro st0 st h hnd
    simp only [classifyGo] at h
    cases h
    exact hnd
  | cons node rest ih =>
    intro st0 st h hnd
    simp only [classifyGo] at h
    split at h
    · exact absurd h (by simp)
    · rename_i st1 hstep
      cases node with
      | str s =>
        refine ih st1 st h ?_
        simp only [classifyStep] at hstep
        cases hstep
        exact hnd
      | sel s =>
        cases s with
        | inline cond sels =>
          refine ih st1 st h ?_
          simp only [classifyStep] at hstep
          cases hstep
          exact hnd
        | spread n =>
          refine ih st1 st h ?_
          simp only [classifyStep] at hstep
          cases hstep
          exact hnd
        | field al nm sub =>
          cases sub with
          | none =>
            refine ih st1 st h ?_
            simp only [classifyStep] at hstep
            split at hstep
            · cases hstep
              exact hnd
            · split at hstep
              · cases hstep
                exact hnd
              · cases hstep
                exact hnd
          | some sels =>
            refine ih st1 st h ?_
            simp only [classifyStep] at hstep
            split at hstep
            · exact absurd hstep (by simp)
            · rename_i fd hfd
              split at hstep
              · rename_i hlk
                cases hstep
                exact nodup_keys_append_fresh st0.links (responseKey al nm) _ hnd
                  ((lookupRec_eq_none_iff st0.links (responseKey al nm)).mp hlk)
              · rename_i e hlk
                cases hstep
                rw [show ({ st0 with links := (mapSet st0.links (responseKey al nm)
                    ⟨e.selectedFieldType,
                      ⟨e.field.al, e.field.nm, mergeSels e.field.sels sels⟩⟩) } :
                  ClassifyState).links = mapSet st0.links (responseKey al nm)
                    ⟨e.selectedFieldType,
                      ⟨e.field.al, e.field.nm, mergeSels e.field.sels sels⟩⟩ from rfl]
                rw [keysOf_mapSet st0.links (responseKey al nm) _
                  (lookupRec_some_mem_keys st0.links (responseKey al nm) e hlk)]
                exact hnd

/-- Claim C3: within one concrete type's classified item list, response keys
of the link map are never duplicated; a key carried by no candidate has no
entry; and for a key carried by candidates `c :: cs`, the single stored
entry keeps the first occurrence's alias and field name and holds the union
— the in-order concatenation — of all the candidates' child selection sets:
later occurrences are merged into the first, never dropped and never
overwriting it. -/
theorem c3_link_field_merging (parent : SchemaTypeDef) (nodes : List SNode)
    (st : ClassifyState) (h : classifySelections parent nodes = Except.ok st) :
    (keysOf st.links).Nodup ∧
    (∀ k, (linkCands nodes).filter (fun c => candKey c = k) = [] →
      lookupRec st.links k = none) ∧
    (∀ k c cs, (linkCands nodes).filter (fun c => candKey c = k) = c :: cs →
      ∃ t, lookupRec st.links k =
        some ⟨t, ⟨c.al, c.nm, c.sels ++ (cs.map (fun x => x.sels)).flatten⟩⟩) := by
  have hinv := classifyGo_links_inv parent nodes emptyClassifyState st h
  refine ⟨?_, ?_, ?_⟩
  · exact classifyGo_links_nodup parent nodes emptyClassifyState st h
      (by simp [emptyClassifyState, keysOf])
  · intro k hk
    have hthis := hinv k
    rw [hk] at hthis
    simpa [emptyClassifyState, lookupRec, applyCands_nil] using hthis
  · intro k c cs hk
    have hc_mem : c ∈ linkCands nodes := by
      have hmem : c ∈ (linkCands nodes).filter (fun c => candKey c = k) := by
        rw [hk]
        exact List.mem_cons_self c cs
      exact List.mem_of_mem_filter hmem
    obtain ⟨fd, hfd⟩ := classifyGo_resolves parent nodes emptyClassifyState st h c hc_mem
    have hthis := hinv k
    rw [hk, show lookupRec (emptyClassifyState.links) k = (none : Option LinkEntry)
      from rfl, applyCands_cons] at hthis
    have happ : applyCand parent none c = some ⟨fd.type, ⟨c.al, c.nm, c.sels⟩⟩ := by
      simp [applyCand, hfd]
    rw [happ, applyCands_from_some] at hthis
    exact ⟨fd.type, hthis⟩

/-- Witness for C3 at a concrete input: classifying the two selections
`friend { id }` and `friend { bark }` on `Dog` leaves a single `friend`
entry whose child selection set is the union of both child selections, with
the first occurrence's alias and name preserved. -/
theorem c3_link_field_merging_witness :
    ∃ t, lookupRec
        (({ prims := [], aliased := [],
            links := [("friend",
              ⟨GQLType.named "Dog",
                ⟨none, "friend",
                  [Sel.field none "id" none, Sel.field none "bark" none]⟩⟩)],
            requireTypename := false, spreadUsages := [] } : ClassifyState)).links
        "friend" =
      some ⟨t, ⟨none, "friend",
        [Sel.field none "id" none] ++
          (([⟨none, "friend", [Sel.field none "bark" none]⟩] : List LinkCand).map
            (fun x => x.sels)).flatten⟩⟩ :=
  (c3_link_field_merging dogT
    [SNode.sel (Sel.field none "friend" (some [Sel.field none "id" none])),
     SNode.sel (Sel.field none "friend" (some [Sel.field none "bark" none]))]
    { prims := [], aliased := [],
      links := [("friend",
        ⟨GQLType.named "Dog",
          ⟨none, "friend", [Sel.field none "id" none, Sel.field none "bark" none]⟩⟩)],
      requireTypename := false, spreadUsages := [] }
    (by rfl)).2.2 "friend" ⟨none, "friend", [Sel.field none "id" none]⟩
    [⟨none, "friend", [Sel.field none "bark" none]⟩] (by rfl)

/-! ## Claim C8 (amended) -/

theorem classifyStep_ok_of_not_bad (parent : SchemaTypeDef) (st : ClassifyState)
    (node : SNode) (h : isBadLink parent node = false) :
    ∃ st', classifyStep parent st node = Except.ok st' := by
  cases node with
  | str s => exact ⟨_, rfl⟩
  | sel s =>
    cases s with
    | inline cond sels => exact ⟨_, rfl⟩
    | spread n => exact ⟨_, rfl⟩
    | field al nm sub =>
      cases sub with
      | none =>
        cases al with
        | some a => exact ⟨_, rfl⟩
        | none =>
          by_cases hnm : nm = "__typename"
          · exact ⟨{ st with requireTypename := true }, by simp [classifyStep, hnm]⟩
          · exact ⟨{ st with prims := mapSet st.prims nm ⟨none, nm, []⟩ },
              by simp [classifyStep, hnm]⟩
      | some sels =>
        simp only [isBadLink] at h
        cases hres : resolveSelectedField parent nm with
        | none =>
          rw [hres] at h
          exact absurd h (by simp)
        | some fd =>
          simp only [classifyStep, hres]
          split
          · exact ⟨_, rfl⟩
          · exact ⟨_, rfl⟩

theorem classifyStep_error_of_bad (parent : SchemaTypeDef) (st : ClassifyState)
    (al : Option String) (nm : String) (sels : List Sel)
    (h : resolveSelectedField parent nm = none) :
    classifyStep parent st (SNode.sel (Sel.field al nm (some sels))) =
      Except.error (couldNotFindMsg parent nm) := by
  simp [classifyStep, h]

/-- A bad link field anywhere in the node list makes the classification loop
fail, and the raised message names the parent type and an offending field. -/
theorem classifyGo_fails_of_bad (parent : SchemaTypeDef) :
    ∀ (nodes : List SNode) (st0 : ClassifyState),
      (∃ n ∈ nodes, isBadLink parent n = true) →
      ∃ nm, (∃ al sels, SNode.sel (Sel.field al nm (some sels)) ∈ nodes ∧
          resolveSelectedField parent nm = none) ∧
        classifyGo parent st0 nodes = Except.error (couldNotFindMsg parent nm) := by
  intro nodes
  induction nodes with
  | nil =>
    rintro st0 ⟨n, hn, _⟩
    exact absurd hn (List.not_mem_nil n)
  | cons node rest ih =>
    rintro st0 ⟨n, hn, hbad⟩
    by_cases hb : isBadLink parent node = true
    · cases node with
      | str s => exact absurd hb (by simp [isBadLink])
      | sel s =>
        cases s with
        | inline cond sels => exact absurd hb (by simp [isBadLink])
        | spread m => exact absurd hb (by simp [isBadLink])
        | field al nm sub =>
          cases sub with
          | none => exact absurd hb (by simp [isBadLink])
          | some sels =>
            simp only [isBadLink, Option.isNone_iff_eq_none] at hb
            refine ⟨nm, ⟨al, sels, List.mem_cons_self _ _, hb⟩, ?_⟩
            simp [classifyGo, classifyStep_error_of_bad parent st0 al nm sels hb]
    · have hbad_rest : ∃ m ∈ rest, isBadLink parent m = true := by
        rcases List.mem_cons.mp hn with he | hm
        · exact absurd (he ▸ hbad) hb
        · exact ⟨n, hm, hbad⟩
      obtain ⟨st1, hst1⟩ := classifyStep_ok_of_not_bad parent st0 node
        (Bool.eq_false_iff.mpr hb)
      obtain ⟨nm, hmem, herr⟩ := ih st1 hbad_rest
      obtain ⟨al, sels, hm, hres⟩ := hmem
      refine ⟨nm, ⟨al, sels, List.mem_cons_of_mem _ hm, hres⟩, ?_⟩
      simp only [classifyGo, hst1]
      exact herr

/-- Claim C8 (amended): if any selected field carrying a nested selection
set resolves to no schema field on the concrete type (and is not a reserved
metadata field), the transformation of that type's selection fails, whatever
selection the field came from; the fatal error names the type and an
offending field. -/
theorem c8_missing_link_field_fatal (ctx : Ctx) (parent : SchemaTypeDef)
    (nodes : List SNode) (h : ∃ n ∈ nodes, isBadLink parent n = true) :
    ∃ nm, (∃ al sels, SNode.sel (Sel.field al nm (some sels)) ∈ nodes ∧
        resolveSelectedField parent nm = none) ∧
      classifySelections parent nodes = Except.error (couldNotFindMsg parent nm) ∧
      ∀ f, buildSelectionSetString ctx (f + 1) parent nodes =
        Except.error (couldNotFindMsg parent nm) := by
  obtain ⟨nm, hmem, herr⟩ := classifyGo_fails_of_bad parent nodes emptyClassifyState h
  have hcs : classifySelections parent nodes =
      Except.error (couldNotFindMsg parent nm) := herr
  refine ⟨nm, hmem, hcs, ?_⟩
  intro f
  simp only [buildSelectionSetString, hcs]

/-- Witness for C8 at a concrete input: the field `bogus { id }` selected on
`Dog` makes the classification and the whole per-type transformation fail
with the error naming `Dog.bogus`. -/
theorem c8_missing_link_field_fatal_witness :
    ∃ nm, (∃ al sels, SNode.sel (Sel.field al nm (some sels)) ∈
        [SNode.sel (Sel.field none "bogus" (some [Sel.field none "id" none]))] ∧
        resolveSelectedField dogT nm = none) ∧
      classifySelections dogT
          [SNode.sel (Sel.field none "bogus" (some [Sel.field none "id" none]))] =
        Except.error (couldNotFindMsg dogT nm) ∧
      ∀ f, buildSelectionSetString ctxC (f + 1) dogT
          [SNode.sel (Sel.field none "bogus" (some [Sel.field none "id" none]))] =
        Except.error (couldNotFindMsg dogT nm) :=
  c8_missing_link_field_fatal ctxC dogT
    [SNode.sel (Sel.field none "bogus" (some [Sel.field none "id" none]))]
    ⟨SNode.sel (Sel.field none "bogus" (some [Sel.field none "id" none])),
      List.mem_cons_self _ _, rfl⟩

/-! ## Claim C9 -/

theorem pushRec_fresh (m : List (String × List String)) (k v : String)
    (h : k ∉ keysOf m) : pushRec m k v = m ++ [(k, [v])] := by
  rw [pushRec, if_neg (fun ha => h ((any_key_iff m k).mp ha))]

theorem foldl_pushRec_fresh (u : SchemaTypeDef → String) :
    ∀ (pts : List SchemaTypeDef) (acc : List (String × List String)),
      (pts.map SchemaTypeDef.nameOf).Nodup →
      (∀ p ∈ pts, p.nameOf ∉ keysOf acc) →
      pts.foldl (fun acc2 pt => pushRec acc2 pt.nameOf (u pt)) acc =
        acc ++ pts.map (fun pt => (pt.nameOf, [u pt])) := by
  intro pts
  induction pts with
  | nil =>
    intro acc _ _
    simp
  | cons p rest ih =>
    intro acc hnd hf
    rw [List.foldl_cons, pushRec_fresh acc p.nameOf (u p) (hf p (List.mem_cons_self p rest))]
    rw [ih (acc ++ [(p.nameOf, [u p])]) (List.Nodup.of_cons (by simpa using hnd)) ?_]
    · simp
    · intro q hq
      rw [keysOf_append, List.mem_append]
      rintro (hk | hk)
      · exact hf q (List.mem_cons_of_mem _ hq) hk
      · have hqp : q.nameOf = p.nameOf := by simpa [keysOf] using hk
        exact (List.nodup_cons.mp (by simpa using hnd)).1
          (hqp ▸ List.mem_map_of_mem SchemaTypeDef.nameOf hq)

/-- Claim C9: for a fragment spread, an unresolvable fragment name yields no
tokens (and no error); a resolvable fragment whose type condition has
exactly one possible concrete type yields for it the converted fragment name
with the bare fragment suffix — no concrete-type part; and a condition with
several (distinctly named, non-empty-named) possible types yields one token
per concrete type, each carrying that concrete type's name inside the
suffix. -/
theorem c9_fragment_spread_usage (ctx : Ctx) (sname : String) :
    (ctx.loadedFragments.find? (fun lf => lf.name = sname) = none →
      buildFragmentSpreadsUsage ctx [sname] = []) ∧
    (∀ lf t p, ctx.loadedFragments.find? (fun lf => lf.name = sname) = some lf →
      ctx.schema.getType lf.onType = some t →
      getPossibleTypes ctx.schema t = [p] →
      buildFragmentSpreadsUsage ctx [sname] =
        [(p.nameOf, [ctx.convertName sname (fragSuffix ctx sname)])]) ∧
    (∀ lf t pts, ctx.loadedFragments.find? (fun lf => lf.name = sname) = some lf →
      ctx.schema.getType lf.onType = some t →
      getPossibleTypes ctx.schema t = pts →
      2 ≤ pts.length →
      (pts.map SchemaTypeDef.nameOf).Nodup →
      (∀ p ∈ pts, p.nameOf ≠ "") →
      buildFragmentSpreadsUsage ctx [sname] =
        pts.map (fun p => (p.nameOf,
          [ctx.convertName sname ("_" ++ p.nameOf ++ "_" ++ fragSuffix ctx sname)]))) := by
  refine ⟨?_, ?_, ?_⟩
  · intro hfind
    simp [buildFragmentSpreadsUsage, hfind]
  · intro lf t p hfind hty hpts
    simp only [buildFragmentSpreadsUsage, List.foldl_cons, List.foldl_nil, hfind, hty, hpts]
    simp [pushRec, buildFragmentTypeName]
  · intro lf t pts hfind hty hpts hlen hnd hne
    simp only [buildFragmentSpreadsUsage, List.foldl_cons, List.foldl_nil, hfind, hty, hpts]
    have h1 : ¬(pts.length = 1) := by omega
    simp only [if_neg h1]
    rw [foldl_pushRec_fresh
      (fun pt => buildFragmentTypeName ctx sname (fragSuffix ctx sname) pt.nameOf)
      pts [] hnd (by simp [keysOf])]
    rw [List.nil_append]
    refine List.map_congr_left ?_
    intro p hp
    rw [buildFragmentTypeName, if_pos (hne p hp)]

/-- Witness for C9 at concrete inputs: the fragment `PetParts` on `Node`
(two possible types) produces per-type-suffixed tokens for `Dog` and `Cat`;
the fragment `DogParts` on `Dog` (one possible type) produces an unsuffixed
token; an unknown fragment name produces no tokens. -/
theorem c9_fragment_spread_usage_witness :
    buildFragmentSpreadsUsage ctxC ["PetParts"] =
      [("Dog", ["PetParts_Dog_Fragment"]), ("Cat", ["PetParts_Cat_Fragment"])] ∧
    buildFragmentSpreadsUsage ctxC ["DogParts"] = [("Dog", ["DogPartsFragment"])] ∧
    buildFragmentSpreadsUsage ctxC ["Missing"] = [] := by
  refine ⟨?_, ?_, ?_⟩
  · have h := (c9_fragment_spread_usage ctxC "PetParts").2.2 ⟨"PetParts", "Node"⟩
      nodeT [dogT, catT] (by rfl) (by rfl) (by rfl) (by decide) (by decide)
      (by decide)
    rw [h]
    rfl
  · have h := (c9_fragment_spread_usage ctxC "DogParts").2.1 ⟨"DogParts", "Dog"⟩
      dogT dogT (by rfl) (by rfl) (by rfl)
    rw [h]
    rfl
  · exact (c9_fragment_spread_usage ctxC "Missing").1 (by rfl)

/-! ## Claim C6 -/

theorem buildPrimaryKeys_of_extract (sig : String) :
    ∀ (ds : List Directive) (nss : List (List String)),
      extractAllFieldSets ds = Except.ok nss →
      buildPrimaryKeys sig ds = Except.ok (nss.map (fun ns =>
        translateFieldSet (ns.map (fun n => (⟨n, true⟩ : FieldSetItem))) sig)) := by
  intro ds
  induction ds with
  | nil =>
    intro nss h
    simp only [extractAllFieldSets] at h
    cases h
    rfl
  | cons d rest ih =>
    intro nss h
    simp only [extractAllFieldSets] at h
    split at h
    · exact absurd h (by simp)
    · rename_i ns hns
      split at h
      · exact absurd h (by simp)
      · rename_i rest' hrest
        cases h
        simp only [buildPrimaryKeys, hns, ih rest' hrest, List.map_cons]

theorem append_space_amp (a b : String) :
    a ++ " " ++ ("& " ++ b) = a ++ " & " ++ b := by
  have h : (" " : String) ++ "& " = " & " := rfl
  rw [String.append_assoc, ← String.append_assoc (" " : String), h,
    ← String.append_assoc]

/-- Claim C6: the parameter type of a federation object type's synthesized
entity-resolution field.  With extracted key field-sets `nss`: a single
`key` annotation yields the bare projection of its field names (all
required); two or more `key` annotations yield the parenthesised union of
the per-key projections; a `requires` annotation additionally intersects the
projection of the required field names (requiredness per the schema's
non-null wrapping) onto the whole key alternative. -/
theorem c6_translate_parent_type (fed : ApolloFederation) (f : FedField)
    (p : FedObjectType) (sig : String)
    (hen : fed.enabled = true) (hfed : isFederationObjectType p = true)
    (hname : f.name = "__resolveReference") :
    (∀ d ns, getDirectivesByName "key" p.directives = [d] →
      extractFieldSet d = Except.ok ns →
      getDirectivesByName "requires" f.directives = [] →
      translateParentType fed f p sig =
        Except.ok (translateFieldSet
          (ns.map (fun n => (⟨n, true⟩ : FieldSetItem))) sig)) ∧
    (∀ ds nss, getDirectivesByName "key" p.directives = ds →
      extractAllFieldSets ds = Except.ok nss → 2 ≤ ds.length →
      getDirectivesByName "requires" f.directives = [] →
      translateParentType fed f p sig =
        Except.ok ("(" ++ joinSep " | " (nss.map (fun ns =>
          translateFieldSet (ns.map (fun n => (⟨n, true⟩ : FieldSetItem))) sig)) ++ ")")) ∧
    (∀ ds nss rds rss ritems, getDirectivesByName "key" p.directives = ds → ds ≠ [] →
      extractAllFieldSets ds = Except.ok nss →
      getDirectivesByName "requires" f.directives = rds →
      extractAllFieldSets rds = Except.ok rss →
      resolveRequires p rss.flatten = Except.ok ritems → ritems ≠ [] →
      translateParentType fed f p sig =
        Except.ok ((if 2 ≤ nss.length then
            "(" ++ joinSep " | " (nss.map (fun ns =>
              translateFieldSet (ns.map (fun n => (⟨n, true⟩ : FieldSetItem))) sig)) ++ ")"
          else joinSep " | " (nss.map (fun ns =>
            translateFieldSet (ns.map (fun n => (⟨n, true⟩ : FieldSetItem))) sig))) ++
          " & " ++ translateFieldSet ritems sig)) := by
  refine ⟨?_, ?_, ?_⟩
  · intro d ns hkeys hex hreq
    have hall : extractAllFieldSets [d] = Except.ok [ns] := by
      simp [extractAllFieldSets, hex]
    simp only [translateParentType, hen, hfed, hname, hkeys, hreq]
    simp only [extractAllFieldSets, List.flatten_nil, resolveRequires,
      buildPrimaryKeys_of_extract sig [d] [ns] hall]
    simp [joinSep, translateFieldSet]
  · intro ds nss hkeys hall hlen hreq
    have hdne : ds.isEmpty = false := by
      cases ds with
      | nil => simp at hlen
      | cons a l => rfl
    have hnsslen : nss.length = ds.length := by
      clear hkeys hlen hdne hreq
      induction ds generalizing nss with
      | nil =>
        simp only [extractAllFieldSets] at hall
        cases hall
        rfl
      | cons d rest ih =>
        simp only [extractAllFieldSets] at hall
        split at hall
        · exact absurd hall (by simp)
        · split at hall
          · exact absurd hall (by simp)
          · rename_i rest' hrest
            cases hall
            simp [ih rest' hrest]
    simp only [translateParentType, hen, hfed, hname, hkeys, hreq, hdne]
    simp only [extractAllFieldSets, List.flatten_nil, resolveRequires,
      buildPrimaryKeys_of_extract sig ds nss hall]
    have hlt : 1 < nss.length := by omega
    simp [joinSep, hlt]
  · intro ds nss rds rss ritems hkeys hdne hall hreq hrss hritems hrne
    have hie : ds.isEmpty = false := by
      cases ds with
      | nil => exact absurd rfl hdne
      | cons a l => rfl
    have hnsslen : nss.length = ds.length := by
      clear hkeys hdne hie hreq hrss hritems hrne
      induction ds generalizing nss with
      | nil =>
        simp only [extractAllFieldSets] at hall
        cases hall
        rfl
      | cons d rest ih =>
        simp only [extractAllFieldSets] at hall
        split at hall
        · exact absurd hall (by simp)
        · split at hall
          · exact absurd hall (by simp)
          · rename_i rest' hrest
            cases hall
            simp [ih rest' hrest]
    simp only [translateParentType, hen, hfed, hname, hkeys, hreq, hie, hrss, hritems,
      buildPrimaryKeys_of_extract sig ds nss hall]
    have hrie : ritems.isEmpty = false := by
      cases ritems with
      | nil => exact absurd rfl hrne
      | cons a l => rfl
    simp only [hrie]
    by_cases htwo : 2 ≤ nss.length
    · have hlt : 1 < nss.length := by omega
      simp only [htwo, if_pos]
      simp [joinSep, hlt]
      rw [append_space_amp]
    · have hone : nss.length = 1 := by
        have hpos : 0 < ds.length := by
          cases ds with
          | nil => exact absurd rfl hdne
          | cons a l => simp
        omega
      obtain ⟨b, hb⟩ : ∃ b, nss = [b] := by
        cases nss with
        | nil => simp at hone
        | cons a l =>
          cases l with
          | nil => exact ⟨a, rfl⟩
          | cons c m => simp at hone
      subst hb
      simp [htwo, joinSep]
      rw [append_space_amp]

/-- Witness for C6 at concrete inputs: a single `key(fields:"id")` yields the
bare projection of `id`; two `key` annotations plus a `requires(fields:
"body")` yield the parenthesised union of the two projections intersected
with the `body` projection. -/
theorem c6_translate_parent_type_witness :
    translateParentType ⟨true, []⟩ fedRefF fedDogP "ParentType" =
      Except.ok ("Pick<ParentType, " ++ squo ++ "id" ++ squo ++ ">") ∧
    translateParentType ⟨true, []⟩
        ⟨"__resolveReference", GQLType.named "Review",
          [⟨"requires", [("fields", "body")]⟩]⟩
        ⟨"Review",
          [⟨"key", [("fields", "id")]⟩, ⟨"key", [("fields", "sku")]⟩],
          [⟨"id", GQLType.nonNull (GQLType.named "ID"), []⟩,
           ⟨"sku", GQLType.named "String", []⟩,
           ⟨"body", GQLType.nonNull (GQLType.named "String"), []⟩]⟩ "Sig" =
      Except.ok ("(Pick<Sig, " ++ squo ++ "id" ++ squo ++ "> | Pick<Sig, " ++
        squo ++ "sku" ++ squo ++ ">) & Pick<Sig, " ++ squo ++ "body" ++ squo ++ ">") := by
  constructor
  · have h := (c6_translate_parent_type ⟨true, []⟩ fedRefF fedDogP "ParentType"
      (by rfl) (by decide) (by rfl)).1 ⟨"key", [("fields", "id")]⟩ ["id"]
      (by rfl) (by rfl) (by rfl)
    rw [h]
    rfl
  · have h := (c6_translate_parent_type ⟨true, []⟩
      ⟨"__resolveReference", GQLType.named "Review",
        [⟨"requires", [("fields", "body")]⟩]⟩
      ⟨"Review",
        [⟨"key", [("fields", "id")]⟩, ⟨"key", [("fields", "sku")]⟩],
        [⟨"id", GQLType.nonNull (GQLType.named "ID"), []⟩,
         ⟨"sku", GQLType.named "String", []⟩,
         ⟨"body", GQLType.nonNull (GQLType.named "String"), []⟩]⟩ "Sig"
      (by rfl) (by decide) (by rfl)).2.2
      [⟨"key", [("fields", "id")]⟩, ⟨"key", [("fields", "sku")]⟩] [["id"], ["sku"]]
      [⟨"requires", [("fields", "body")]⟩] [["body"]] [⟨"body", true⟩]
      (by rfl) (by simp) (by rfl) (by rfl) (by rfl) (by rfl) (by simp)
    rw [h]
    rfl
